import Mathlib

/-!
Shallow embedding of the core of `my_tui/main.py` (git-commit-date-py):
the git-log parser (`parse_git_log`, `create_commit`) and the date codec
(`convert_commit_date_to_input_date`, `convert_input_date_to_commit_date`).

Modelling conventions:
* Python strings are modelled as `List Char`; lines of input as
  `List (List Char)`.
* Python exceptions (`IndexError`, `KeyError` from the parser, `ValueError`
  from `datetime.strptime`/`datetime`/`timezone`) are modelled by `Except`
  results; the error string records which Python exception is raised.
* The mutable `commit_data` dict of `parse_git_log` only ever receives the
  five keys `hash`, `name`, `email`, `date`, `subject`, so it is modelled by
  a record of five `Option` fields; Python dict truthiness (`if commit_data:`)
  is `cdNonempty` (some field present).
* `re.match(r"Author: (.+) <(.+)>", line)` is modelled by `pyAuthorMatch`,
  implementing the regex semantics directly: prefix match anchored at the
  start, `.` matching any character except newline, both groups greedy
  (group 1 takes the largest feasible end position first, then group 2).
* `datetime.strptime` with the two fixed formats used by the code is modelled
  by `strptimeCommit` / `strptimeEditable`, following CPython `_strptime`:
  whitespace runs in the format match one-or-more whitespace characters,
  `%a`/`%b` match the C-locale abbreviated names case-insensitively, `%d` is
  `3[01]|[12]\d|0[1-9]|[1-9]`, `%H` is `2[0-3]|[0-1]\d|\d`, `%M` is
  `[0-5]\d|\d`, `%S` is `6[0-1]|[0-5]\d|\d` (seconds 60 and 61 are then
  rejected by the `datetime` constructor), `%Y` is `\d\d\d\d`, `%m` is
  `1[0-2]|0[1-9]|[1-9]`, and `%z` is
  `[+-]\d\d:?[0-5]\d(:?[0-5]\d(\.\d{1,6})?)?|Z`; the whole input must be
  consumed.  Because every numeric alternative is followed in these formats
  by a non-digit (whitespace, `:`, `.` or end), the backtracking regex is
  equivalent to the deterministic longest-alternative-first parser used here.
* `datetime.strftime` with the two fixed formats is modelled by
  `strftimeCommit` / `strftimeEditable`: `%d %m %H %M %S` zero-pad to two
  digits, `%Y` is rendered as the year in decimal without zero-padding
  (glibc behaviour — four digits exactly when the year is at least 1000;
  years are at most 9999 by construction), `%a`/`%b` are the C-locale names
  with the weekday recomputed from the proleptic Gregorian calendar, and
  `%z` is rendered by `datetime`'s own `_wrap_strftime` as sign, `HHMM`,
  then seconds and microseconds only when nonzero.
-/

set_option maxRecDepth 20000

namespace GitDate

/-- ASCII whitespace as recognised by Python's `str.strip`/`str.split`
(the inputs of interest are ASCII). -/
def pyIsSpace (c : Char) : Bool :=
  c = ' ' || c = '\t' || c = '\n' || c = '\r' || c = '\x0b' || c = '\x0c'

/-- Python `str.strip()`: remove leading and trailing whitespace. -/
def pyStrip (s : List Char) : List Char :=
  ((s.dropWhile pyIsSpace).reverse.dropWhile pyIsSpace).reverse

/-- Helper for `pySplitWs`: scan the remaining characters, carrying the
current word in reverse; a whitespace character emits the pending word
(when nonempty), end of input emits the final pending word. -/
def pySplitWsAux : List Char → List Char → List (List Char)
  | [], w => if w.isEmpty then [] else [w.reverse]
  | c :: cs, w =>
    if pyIsSpace c then
      if w.isEmpty then pySplitWsAux cs [] else w.reverse :: pySplitWsAux cs []
    else pySplitWsAux cs (c :: w)

/-- Python `str.split()` with no separator: split on runs of whitespace,
discarding empty pieces. -/
def pySplitWs (s : List Char) : List (List Char) := pySplitWsAux s []

/-- The pieces of Python `line.split(":", 1)`: the text before the first
colon, and (when a colon is present) the text after it. -/
def splitFirstColon : List Char → List Char × Option (List Char)
  | [] => ([], none)
  | c :: cs =>
    if c = ':' then ([], some cs)
    else
      let p := splitFirstColon cs
      (c :: p.1, p.2)

/-- True when the list contains no newline character (`.` in a Python
regex matches any character except a newline). -/
def noNL (l : List Char) : Bool := l.all (fun c => !(c = '\n'))

/-- One admissible split of the text after `"Author: "` for the regex
`Author: (.+) <(.+)>`: group 1 is `rest.take i`, then a space and a `<`,
group 2 runs up to position `j` exclusive, which holds `>`. -/
def authorSplitOk (rest : List Char) (i j : Nat) : Bool :=
  decide (1 ≤ i) && decide (i + 2 < j) && decide (j < rest.length) &&
  noNL (rest.take i) &&
  decide (rest.getD i '\x00' = ' ') && decide (rest.getD (i + 1) '\x00' = '<') &&
  noNL ((rest.drop (i + 2)).take (j - (i + 2))) &&
  decide (rest.getD j '\x00' = '>')

/-- Largest `k < n` satisfying `p`, if any. -/
def findMax (p : Nat → Bool) : Nat → Option Nat
  | 0 => none
  | n + 1 => if p n then some n else findMax p n

/-- Model of `re.match(r"Author: (.+) <(.+)>", line)`: returns the two
captured groups when the regex matches a prefix of `line`.  Greedy matching
picks the largest feasible end of group 1 first, then the largest feasible
end of group 2. -/
def pyAuthorMatch (line : List Char) : Option (List Char × List Char) :=
  if ("Author: ".toList).isPrefixOf line then
    let rest := line.drop 8
    match findMax (fun i => (List.range rest.length).any
        (fun j => authorSplitOk rest i j)) rest.length with
    | none => none
    | some i =>
      match findMax (fun j => authorSplitOk rest i j) rest.length with
      | none => none
      | some j => some (rest.take i, (rest.drop (i + 2)).take (j - (i + 2)))
  else none

/-- The `Commit` class of `main.py` (hash, name, email, date, subject). -/
structure Commit where
  hash : List Char
  name : List Char
  email : List Char
  date : List Char
  subject : List Char
deriving Repr, DecidableEq

/-- The `commit_data` dict of `parse_git_log`; only the five keys below are
ever written, so the dict is a record of five optional fields. -/
structure CommitData where
  hash : Option (List Char)
  name : Option (List Char)
  email : Option (List Char)
  date : Option (List Char)
  subject : Option (List Char)
deriving Repr, DecidableEq

/-- The empty `commit_data` dict `{}`. -/
def emptyCD : CommitData := ⟨none, none, none, none, none⟩

/-- Python dict truthiness of `commit_data` (`if commit_data:`). -/
def cdNonempty (cd : CommitData) : Bool :=
  cd.hash.isSome || cd.name.isSome || cd.email.isSome ||
  cd.date.isSome || cd.subject.isSome

/-- `create_commit(data)`: builds a `Commit` from the dict, accessing the
keys in source order; a missing key raises `KeyError`. -/
def create_commit (cd : CommitData) : Except String Commit :=
  match cd.hash with
  | none => .error "KeyError: hash"
  | some h =>
    match cd.name with
    | none => .error "KeyError: name"
    | some n =>
      match cd.email with
      | none => .error "KeyError: email"
      | some e =>
        match cd.date with
        | none => .error "KeyError: date"
        | some d =>
          match cd.subject with
          | none => .error "KeyError: subject"
          | some s => .ok ⟨h, n, e, d, s⟩

/-- One iteration of the `for line in output_lines` loop of
`parse_git_log`: branches in source order on `line.startswith("commit")`,
`line.startswith("Author:")`, `line.startswith("Date:")`, `line.strip()`.
On a `commit` line the pending record is flushed first (possible
`KeyError`), then the hash is read as `line.split()[1]` (possible
`IndexError`). -/
def parseStep (commits : List Commit) (cd : CommitData) (line : List Char) :
    Except String (List Commit × CommitData) :=
  if ("commit".toList).isPrefixOf line then
    match (if cdNonempty cd then (create_commit cd).map (fun c => commits ++ [c])
           else .ok commits) with
    | .error e => .error e
    | .ok commits' =>
      match pySplitWs line with
      | _ :: h :: _ =>
        .ok (commits', { emptyCD with hash := some h })
      | _ => .error "IndexError: list index out of range"
  else if ("Author:".toList).isPrefixOf line then
    match pyAuthorMatch line with
    | some g => .ok (commits, { cd with name := some (pyStrip g.1),
                                        email := some (pyStrip g.2) })
    | none => .ok (commits, cd)
  else if ("Date:".toList).isPrefixOf line then
    match (splitFirstColon line).2 with
    | some rest => .ok (commits, { cd with date := some (pyStrip rest) })
    | none => .error "IndexError: list index out of range"
  else if pyStrip line ≠ [] then
    .ok (commits, { cd with subject := some (pyStrip line) })
  else
    .ok (commits, cd)

/-- The loop of `parse_git_log` over the remaining lines. -/
def parseLines : List (List Char) → List Commit → CommitData →
    Except String (List Commit × CommitData)
  | [], commits, cd => .ok (commits, cd)
  | l :: ls, commits, cd =>
    match parseStep commits cd l with
    | .error e => .error e
    | .ok st => parseLines ls st.1 st.2

/-- `parse_git_log(output_lines)`: empty input returns `[]`; otherwise run
the loop and flush the pending record at end of input. -/
def parse_git_log (output_lines : List (List Char)) : Except String (List Commit) :=
  if output_lines.isEmpty then .ok []
  else
    match parseLines output_lines [] emptyCD with
    | .error e => .error e
    | .ok (commits, cd) =>
      if cdNonempty cd then
        match create_commit cd with
        | .error e => .error e
        | .ok c => .ok (commits ++ [c])
      else .ok commits

/-! ### Date codec: model of `datetime.strptime` / `strftime` for the two
fixed formats used by `main.py`. -/

/-- Value of an ASCII digit character. -/
def digitVal (c : Char) : Nat := c.toNat - 48

/-- The ASCII digit character for `n < 10`. -/
def digitChar (n : Nat) : Char := Char.ofNat (48 + n)

/-- A `datetime` value as produced by `datetime.strptime` with the formats
of `main.py`: date and time fields plus the UTC offset of its `timezone`
in microseconds (the `microsecond` field itself is always 0, no `%f`). -/
structure PyDateTime where
  year : Nat
  month : Nat
  day : Nat
  hour : Nat
  minute : Nat
  second : Nat
  offUs : Int
deriving Repr, DecidableEq

/-- Gregorian leap year (as in Python's `calendar`/`datetime`). -/
def isLeap (y : Nat) : Bool := y % 4 = 0 && (y % 100 ≠ 0 || y % 400 = 0)

/-- Days in a month (as validated by the `datetime` constructor). -/
def daysInMonth (y m : Nat) : Nat :=
  if m = 2 then (if isLeap y then 29 else 28)
  else if m = 4 || m = 6 || m = 9 || m = 11 then 30
  else 31

/-- Validation performed by `datetime(...)` and `timezone(timedelta(...))`:
year 1..9999, month 1..12, day within the month, hour ≤ 23, minute ≤ 59,
second ≤ 59, offset strictly between -24h and +24h. -/
def mkDateTime (y mo d h mi s : Nat) (off : Int) : Option PyDateTime :=
  if 1 ≤ y ∧ y ≤ 9999 ∧ 1 ≤ mo ∧ mo ≤ 12 ∧ 1 ≤ d ∧ d ≤ daysInMonth y mo ∧
      h ≤ 23 ∧ mi ≤ 59 ∧ s ≤ 59 ∧
      -86400000000 < off ∧ off < 86400000000 then
    some ⟨y, mo, d, h, mi, s, off⟩
  else none

/-- Lower-case an ASCII letter (the `re.IGNORECASE` folding relevant to the
locale name alternations, restricted to ASCII inputs). -/
def lowerChar (c : Char) : Char :=
  if 'A' ≤ c ∧ c ≤ 'Z' then Char.ofNat (c.toNat + 32) else c

/-- C-locale abbreviated weekday names, lower-cased, as stored by
`_strptime.LocaleTime` (`%a`; the parsed value is discarded by
`datetime.strptime`). -/
def wdNamesLower : List (List Char) :=
  ["mon".toList, "tue".toList, "wed".toList, "thu".toList,
   "fri".toList, "sat".toList, "sun".toList]

/-- C-locale abbreviated month names, lower-cased (`%b`); the month number
is one plus the index. -/
def moNamesLower : List (List Char) :=
  ["jan".toList, "feb".toList, "mar".toList, "apr".toList, "may".toList,
   "jun".toList, "jul".toList, "aug".toList, "sep".toList, "oct".toList,
   "nov".toList, "dec".toList]

/-- Match one three-letter locale name case-insensitively, returning its
index in the table. -/
def parseAbbrev (names : List (List Char)) : List Char → Option (Nat × List Char)
  | a :: b :: c :: rest =>
    match names.findIdx? (fun n => n == [lowerChar a, lowerChar b, lowerChar c]) with
    | some i => some (i, rest)
    | none => none
  | _ => none

/-- Match `\s+` in the `_strptime` regex (whitespace runs in the format
match one or more whitespace characters). -/
def parseWs1 : List Char → Option (List Char)
  | c :: cs => if pyIsSpace c then some (cs.dropWhile pyIsSpace) else none
  | [] => none

/-- Match a one-or-two-digit numeric directive.  `two` is the set of values
whose two-digit form the regex alternation accepts, `one` the set of
accepted one-digit values.  The two-digit branch is preferred, as in the
regex (in the fixed formats the directive is always followed by a
non-digit, so backtracking into the one-digit branch can never succeed when
two digits are present). -/
def parseNum2 (two one : Nat → Bool) : List Char → Option (Nat × List Char)
  | a :: b :: rest =>
    if a.isDigit && b.isDigit && two (10 * digitVal a + digitVal b) then
      some (10 * digitVal a + digitVal b, rest)
    else if a.isDigit && one (digitVal a) then
      some (digitVal a, b :: rest)
    else none
  | [a] => if a.isDigit && one (digitVal a) then some (digitVal a, []) else none
  | [] => none

/-- Match one literal character. -/
def parseChar (c : Char) : List Char → Option (List Char)
  | x :: xs => if x = c then some xs else none
  | [] => none

/-- Match `%Y` (`\d\d\d\d`, exactly four digits). -/
def parse4Digits : List Char → Option (Nat × List Char)
  | a :: b :: c :: d :: rest =>
    if a.isDigit && b.isDigit && c.isDigit && d.isDigit then
      some (1000 * digitVal a + 100 * digitVal b + 10 * digitVal c + digitVal d,
            rest)
    else none
  | _ => none

/-- Skip an optional `:` (`:?` in the `%z` regex). -/
def parseOptColon : List Char → List Char
  | [] => []
  | c :: cs => if c = ':' then cs else c :: cs

/-- Match `[0-5]\d` (a two-digit minute or second inside `%z`). -/
def parse05pair : List Char → Option (Nat × List Char)
  | a :: b :: rest =>
    if a.isDigit && digitVal a ≤ 5 && b.isDigit then
      some (10 * digitVal a + digitVal b, rest)
    else none
  | _ => none

/-- Match `\.\d{1,6}` in `%z`: a fraction of a second, right-padded to
microseconds as in `_strptime`. -/
def parseZFrac (l : List Char) : Option (Nat × List Char) :=
  match l with
  | '.' :: rest =>
    let ds := (rest.take 6).takeWhile Char.isDigit
    if ds.isEmpty then none
    else some ((ds.foldl (fun acc c => 10 * acc + digitVal c) 0) *
                 10 ^ (6 - ds.length),
               rest.drop ds.length)
  | _ => none

/-- Match the optional seconds-and-fraction part of `%z`
(`(:?[0-5]\d(\.\d{1,6})?)?`), returning the value in microseconds; when the
group cannot match, nothing is consumed. -/
def parseZSec (l : List Char) : Nat × List Char :=
  match parse05pair (parseOptColon l) with
  | some (ss, rest) =>
    match parseZFrac rest with
    | some (us, rest2) => (ss * 1000000 + us, rest2)
    | none => (ss * 1000000, rest)
  | none => (0, l)

/-- Match `%z` (`[+-]\d\d:?[0-5]\d(:?[0-5]\d(\.\d{1,6})?)?|Z`), returning
the signed UTC offset in microseconds as computed by `_strptime`. -/
def parseZ : List Char → Option (Int × List Char)
  | 'Z' :: rest => some (0, rest)
  | s :: rest =>
    if s = '+' || s = '-' then
      match rest with
      | a :: b :: rest2 =>
        if a.isDigit && b.isDigit then
          match parse05pair (parseOptColon rest2) with
          | some (mm, rest3) =>
            let secPart := parseZSec rest3
            let total : Int :=
              (((10 * digitVal a + digitVal b) * 3600 + mm * 60) * 1000000 +
                 secPart.1 : Nat)
            some (if s = '-' then -total else total, secPart.2)
          | none => none
        else none
      | _ => none
    else none
  | [] => none

/-- `datetime.strptime(s, "%a %b %d %H:%M:%S %Y %z")`: the weekday is
matched and discarded, then the constructed `datetime` is validated.  The
whole input must be consumed, as `_strptime` raises on unconverted data. -/
def strptimeCommit (s : List Char) : Option PyDateTime :=
  match parseAbbrev wdNamesLower s with
  | none => none
  | some p1 =>
  match parseWs1 p1.2 with
  | none => none
  | some l2 =>
  match parseAbbrev moNamesLower l2 with
  | none => none
  | some p2 =>
  match parseWs1 p2.2 with
  | none => none
  | some l3 =>
  match parseNum2 (fun v => decide (1 ≤ v) && decide (v ≤ 31))
      (fun v => decide (1 ≤ v) && decide (v ≤ 9)) l3 with
  | none => none
  | some p3 =>
  match parseWs1 p3.2 with
  | none => none
  | some l4 =>
  match parseNum2 (fun v => decide (v ≤ 23)) (fun _ => true) l4 with
  | none => none
  | some p4 =>
  match parseChar ':' p4.2 with
  | none => none
  | some l5 =>
  match parseNum2 (fun v => decide (v ≤ 59)) (fun _ => true) l5 with
  | none => none
  | some p5 =>
  match parseChar ':' p5.2 with
  | none => none
  | some l6 =>
  match parseNum2 (fun v => decide (v ≤ 61)) (fun _ => true) l6 with
  | none => none
  | some p6 =>
  match parseWs1 p6.2 with
  | none => none
  | some l7 =>
  match parse4Digits l7 with
  | none => none
  | some p7 =>
  match parseWs1 p7.2 with
  | none => none
  | some l8 =>
  match parseZ l8 with
  | none => none
  | some p8 =>
  if p8.2 = [] then
    mkDateTime p7.1 (p2.1 + 1) p3.1 p4.1 p5.1 p6.1 p8.1
  else none

/-- `datetime.strptime(s, "%Y.%m.%d %H:%M:%S %z")`. -/
def strptimeEditable (s : List Char) : Option PyDateTime :=
  match parse4Digits s with
  | none => none
  | some p1 =>
  match parseChar '.' p1.2 with
  | none => none
  | some l2 =>
  match parseNum2 (fun v => decide (1 ≤ v) && decide (v ≤ 12))
      (fun v => decide (1 ≤ v) && decide (v ≤ 9)) l2 with
  | none => none
  | some p2 =>
  match parseChar '.' p2.2 with
  | none => none
  | some l3 =>
  match parseNum2 (fun v => decide (1 ≤ v) && decide (v ≤ 31))
      (fun v => decide (1 ≤ v) && decide (v ≤ 9)) l3 with
  | none => none
  | some p3 =>
  match parseWs1 p3.2 with
  | none => none
  | some l4 =>
  match parseNum2 (fun v => decide (v ≤ 23)) (fun _ => true) l4 with
  | none => none
  | some p4 =>
  match parseChar ':' p4.2 with
  | none => none
  | some l5 =>
  match parseNum2 (fun v => decide (v ≤ 59)) (fun _ => true) l5 with
  | none => none
  | some p5 =>
  match parseChar ':' p5.2 with
  | none => none
  | some l6 =>
  match parseNum2 (fun v => decide (v ≤ 61)) (fun _ => true) l6 with
  | none => none
  | some p6 =>
  match parseWs1 p6.2 with
  | none => none
  | some l7 =>
  match parseZ l7 with
  | none => none
  | some p7 =>
  if p7.2 = [] then
    mkDateTime p1.1 p2.1 p3.1 p4.1 p5.1 p6.1 p7.1
  else none

/-- Two-digit zero-padded rendering (`%d`, `%m`, `%H`, `%M`, `%S`). -/
def two0 (n : Nat) : List Char := [digitChar (n / 10 % 10), digitChar (n % 10)]

/-- Four-digit rendering of a number below 10000. -/
def four0 (n : Nat) : List Char :=
  [digitChar (n / 1000 % 10), digitChar (n / 100 % 10),
   digitChar (n / 10 % 10), digitChar (n % 10)]

/-- Six-digit zero-padded rendering (microseconds in `%z`). -/
def six0 (n : Nat) : List Char :=
  [digitChar (n / 100000 % 10), digitChar (n / 10000 % 10),
   digitChar (n / 1000 % 10), digitChar (n / 100 % 10),
   digitChar (n / 10 % 10), digitChar (n % 10)]

/-- `%Y` as rendered by glibc `strftime`: the year in decimal without
zero-padding (a four-digit rendering exactly when the year is at least
1000; `datetime` years never exceed 9999). -/
def fmtYear (y : Nat) : List Char :=
  if 1000 ≤ y then four0 y
  else if 100 ≤ y then [digitChar (y / 100 % 10), digitChar (y / 10 % 10),
                        digitChar (y % 10)]
  else if 10 ≤ y then two0 y
  else [digitChar y]

/-- `%z` as rendered by `datetime._wrap_strftime`: sign, `HHMM`, then
seconds and fraction only when nonzero. -/
def fmtZ (off : Int) : List Char :=
  let sign : Char := if off < 0 then '-' else '+'
  let a := off.natAbs
  let h := a / 3600000000
  let m := a / 60000000 % 60
  let s := a / 1000000 % 60
  let u := a % 1000000
  if u ≠ 0 then sign :: (two0 h ++ two0 m ++ two0 s ++ '.' :: six0 u)
  else if s ≠ 0 then sign :: (two0 h ++ two0 m ++ two0 s)
  else sign :: (two0 h ++ two0 m)

/-- Proleptic-Gregorian ordinal of a date (as `date.toordinal`; day 1 is
0001-01-01, a Monday). -/
def toOrdinal (y m d : Nat) : Nat :=
  365 * (y - 1) + (y - 1) / 4 - (y - 1) / 100 + (y - 1) / 400 +
  (List.range (m - 1)).foldl (fun acc i => acc + daysInMonth y (i + 1)) 0 + d

/-- C-locale abbreviated weekday name of a date (`%a` under `strftime`;
index `toOrdinal % 7`, with ordinal 0 mod 7 falling on Sunday). -/
def wdName (y m d : Nat) : List Char :=
  (["Sun".toList, "Mon".toList, "Tue".toList, "Wed".toList,
    "Thu".toList, "Fri".toList, "Sat".toList]).getD (toOrdinal y m d % 7) []

/-- C-locale abbreviated month name (`%b` under `strftime`). -/
def moName (m : Nat) : List Char :=
  (["Jan".toList, "Feb".toList, "Mar".toList, "Apr".toList, "May".toList,
    "Jun".toList, "Jul".toList, "Aug".toList, "Sep".toList, "Oct".toList,
    "Nov".toList, "Dec".toList]).getD (m - 1) []

/-- `dt.strftime("%Y.%m.%d %H:%M:%S %z")`. -/
def strftimeEditable (dt : PyDateTime) : List Char :=
  fmtYear dt.year ++ '.' :: two0 dt.month ++ '.' :: two0 dt.day ++ ' ' ::
  two0 dt.hour ++ ':' :: two0 dt.minute ++ ':' :: two0 dt.second ++ ' ' ::
  fmtZ dt.offUs

/-- `dt.strftime("%a %b %d %H:%M:%S %Y %z")`. -/
def strftimeCommit (dt : PyDateTime) : List Char :=
  wdName dt.year dt.month dt.day ++ ' ' :: moName dt.month ++ ' ' ::
  two0 dt.day ++ ' ' :: two0 dt.hour ++ ':' :: two0 dt.minute ++ ':' ::
  two0 dt.second ++ ' ' :: fmtYear dt.year ++ ' ' :: fmtZ dt.offUs

/-- The error raised by the two date-conversion functions when the input
does not match the expected layout.  It models the `ValueError` raised by
`datetime.strptime` (the spec names this failure `DateFormatError`),
carrying the offending format and input. -/
inductive DateFormatError where
  | valueError (format : String) (data : String)
deriving Repr, DecidableEq

/-- `convert_commit_date_to_input_date(date_string)`. -/
def convert_commit_date_to_input_date (date_string : String) :
    Except DateFormatError String :=
  match strptimeCommit date_string.toList with
  | none => .error (.valueError "%a %b %d %H:%M:%S %Y %z" date_string)
  | some dt => .ok (strftimeEditable dt).asString

/-- `convert_input_date_to_commit_date(date_string)`. -/
def convert_input_date_to_commit_date (date_string : String) :
    Except DateFormatError String :=
  match strptimeEditable date_string.toList with
  | none => .error (.valueError "%Y.%m.%d %H:%M:%S %z" date_string)
  | some dt => .ok (strftimeCommit dt).asString

end GitDate
namespace GitDate

deriving instance DecidableEq for Except

/-- An abstract well-formed log entry, used to state correctness of the
parser over the spec's input format. -/
structure Entry where
  hash : List Char
  name : List Char
  email : List Char
  date : List Char
  subject : List Char
deriving Repr, DecidableEq

/-- The five log lines of one entry, following the spec's input format
(`commit <hash>`, `Author: <name> <<email>>`, `Date:   <date>`, a blank
line, an indented subject line). -/
def renderEntry (e : Entry) : List (List Char) :=
  ["commit ".toList ++ e.hash,
   "Author: ".toList ++ (e.name ++ ' ' :: '<' :: (e.email ++ ['>'])),
   "Date:   ".toList ++ e.date,
   [],
   "    ".toList ++ e.subject]

/-- Well-formedness of an entry: a nonempty whitespace-free hash, nonempty
name and email free of angle brackets and newlines and invariant under
stripping, a stripped date, and a nonempty stripped subject. -/
def wfEntry (e : Entry) : Bool :=
  decide (e.hash ≠ []) && e.hash.all (fun c => !pyIsSpace c) &&
  decide (e.name ≠ []) &&
  e.name.all (fun c => !(c = '<' || c = '>' || c = '\n')) &&
  decide (pyStrip e.name = e.name) &&
  decide (e.email ≠ []) &&
  e.email.all (fun c => !(c = '<' || c = '>' || c = '\n')) &&
  decide (pyStrip e.email = e.email) &&
  decide (pyStrip e.date = e.date) &&
  decide (e.subject ≠ []) &&
  decide (pyStrip e.subject = e.subject)

/-- The `Commit` record an entry should parse to. -/
def entryCommit (e : Entry) : Commit :=
  ⟨e.hash, e.name, e.email, e.date, e.subject⟩

/-- The fully populated `commit_data` dict collected from one entry. -/
def fullCD (e : Entry) : CommitData :=
  ⟨some e.hash, some e.name, some e.email, some e.date, some e.subject⟩

/-- Number of input lines on which `line.startswith("commit")` holds. -/
def countCommitLines (lines : List (List Char)) : Nat :=
  lines.countP (fun l => ("commit".toList).isPrefixOf l)

/-- The last element of the nonempty entry list `e :: es`. -/
def lastEntry : List Entry → Entry → Entry
  | [], e => e
  | x :: xs, _ => lastEntry xs x

/-- All elements of the nonempty entry list `e :: es` except the last. -/
def leadEntries : List Entry → Entry → List Entry
  | [], _ => []
  | x :: xs, e => e :: leadEntries xs x

/-! ### Concrete evaluations -/

/-- C7: `convert_commit_date_to_input_date` maps the commit-layout literal
to the editable-layout literal, with the day zero-padded. -/
theorem c7_to_editable_literal :
    convert_commit_date_to_input_date "Tue Oct 8 11:59:23 2024 +0300" =
      .ok "2024.10.08 11:59:23 +0300" := by decide

/-- C1 counterexample: the round trip through the editable format does not
return the commit-layout literal unchanged; the day comes back
zero-padded. -/
theorem c1_counterexample :
    (convert_commit_date_to_input_date "Tue Oct 8 11:59:23 2024 +0300").bind
        convert_input_date_to_commit_date =
      .ok "Tue Oct 08 11:59:23 2024 +0300" ∧
    ("Tue Oct 08 11:59:23 2024 +0300" : String) ≠
      "Tue Oct 8 11:59:23 2024 +0300" := by
  exact ⟨by decide, by decide⟩

/-- C2 counterexample: `parse_git_log` raises `IndexError` on a line
consisting only of the token `commit`, instead of returning a list. -/
theorem c2_counterexample :
    parse_git_log [("commit".toList)] =
      .error "IndexError: list index out of range" := by decide

/-- C2 amended: `parse_git_log` raises on malformed input: `IndexError`
when a `commit` line has no second token, and `KeyError` when a record is
missing the author, date or subject fields at assembly time; fields are
demanded, not omitted. -/
theorem c2_amended_raises :
    parse_git_log [("commit".toList)] =
      .error "IndexError: list index out of range" ∧
    parse_git_log [("commit abc".toList)] = .error "KeyError: name" ∧
    parse_git_log ["commit abc".toList, "Author: A <a@b>".toList,
        "Date: d".toList] = .error "KeyError: subject" ∧
    parse_git_log ["commit abc".toList, "Author: A <a@b>".toList,
        "    s".toList] = .error "KeyError: date" := by
  refine ⟨by decide, by decide, by decide, by decide⟩

/-- C3 counterexample: an entry whose `Author:` line does not match
`name <email>` makes `parse_git_log` fail with a `KeyError` at record
assembly; no record with empty name/email is produced. -/
theorem c3_counterexample :
    parse_git_log ["commit abc".toList, "Author: bogus".toList,
        "Date: d".toList, "".toList, "  subj".toList] =
      .error "KeyError: name" := by decide

/-- C4 counterexample: with two non-blank free-text lines in one entry,
the subject of the parsed record is the second line, not the first. -/
theorem c4_counterexample :
    parse_git_log ["commit abc".toList, "Author: A <a@b>".toList,
        "Date: d".toList, "".toList, "    first".toList,
        "    second".toList] =
      .ok [⟨"abc".toList, "A".toList, "a@b".toList, "d".toList,
           "second".toList⟩] ∧
    ("second".toList : List Char) ≠ "first".toList := by
  exact ⟨by decide, by decide⟩

/-- C8 counterexample: the editable-layout string with offset `-0000`
is not reproduced by the round trip through the commit format; the zero
offset is renormalised to `+0000`. -/
theorem c8_counterexample :
    (convert_input_date_to_commit_date "2024.10.08 11:59:23 -0000").bind
        convert_commit_date_to_input_date =
      .ok "2024.10.08 11:59:23 +0000" ∧
    ("2024.10.08 11:59:23 +0000" : String) ≠ "2024.10.08 11:59:23 -0000" := by
  exact ⟨by decide, by decide⟩


/-! ### Helper lemmas: prefixes, stripping, splitting -/

theorem isPrefixOf_self_append (p r : List Char) : p.isPrefixOf (p ++ r) = true := by
  induction p with
  | nil => simp [List.isPrefixOf]
  | cons a as ih => simp [List.isPrefixOf, ih]

theorem isPrefixOf_cons_false {a b : Char} (as bs : List Char) (h : ¬a = b) :
    (a :: as).isPrefixOf (b :: bs) = false := by
  simp [List.isPrefixOf, h]

theorem pyStrip_cons_space (l : List Char) : pyStrip (' ' :: l) = pyStrip l := by
  have h : pyIsSpace ' ' = true := by decide
  simp [pyStrip, List.dropWhile_cons, h]

theorem pySplitWsAux_word (w rest acc : List Char)
    (h : ∀ c ∈ w, pyIsSpace c = false) :
    pySplitWsAux (w ++ rest) acc = pySplitWsAux rest (w.reverse ++ acc) := by
  induction w generalizing acc with
  | nil => simp
  | cons a as ih =>
    have ha : pyIsSpace a = false := h a (by simp)
    simp only [List.cons_append, pySplitWsAux, ha, Bool.false_eq_true, if_false,
      List.append_eq]
    rw [ih _ (fun c hc => h c (by simp [hc]))]
    simp

theorem pySplitWsAux_space (c : Char) (rest acc : List Char)
    (hc : pyIsSpace c = true) (ha : acc ≠ []) :
    pySplitWsAux (c :: rest) acc = acc.reverse :: pySplitWsAux rest [] := by
  simp [pySplitWsAux, hc, List.isEmpty_iff, ha]

theorem pySplitWsAux_single (w : List Char) (h1 : w ≠ [])
    (h2 : ∀ c ∈ w, pyIsSpace c = false) : pySplitWsAux w [] = [w] := by
  have hw := pySplitWsAux_word w [] [] h2
  simp only [List.append_nil] at hw
  rw [hw]
  simp [pySplitWsAux, List.isEmpty_iff, h1]

theorem pySplitWs_commit_line (hash : List Char) (h1 : hash ≠ [])
    (h2 : ∀ c ∈ hash, pyIsSpace c = false) :
    pySplitWs ("commit ".toList ++ hash) = ["commit".toList, hash] := by
  have e : "commit ".toList ++ hash = "commit".toList ++ (' ' :: hash) := rfl
  rw [pySplitWs, e, pySplitWsAux_word _ _ _ (by decide),
    pySplitWsAux_space _ _ _ (by decide) (by decide),
    pySplitWsAux_single hash h1 h2]
  simp


/-! ### The author regex on well-formed author lines -/

theorem findMax_eq_some (p : Nat → Bool) (n k : Nat) (hk : k < n) (hp : p k = true)
    (hmax : ∀ m, k < m → m < n → p m = false) : findMax p n = some k := by
  induction n with
  | zero => omega
  | succ n ih =>
    by_cases h : k = n
    · subst h
      simp [findMax, hp]
    · have hn : p n = false := hmax n (by omega) (by omega)
      simp only [findMax, hn, Bool.false_eq_true, if_false]
      exact ih (by omega) (fun m hm1 hm2 => hmax m hm1 (by omega))

theorem author_rest_length (name email : List Char) :
    (name ++ ' ' :: '<' :: (email ++ ['>'])).length = name.length + email.length + 3 := by
  simp [List.length_append]
  omega

theorem author_rest_char (name email : List Char) (c : Char)
    (hn : c ∉ name) (he : c ∉ email) (hsp : c ≠ ' ') (hlt : c ≠ '<')
    (hd : c ≠ '\x00') (q : Nat)
    (hq : (name ++ ' ' :: '<' :: (email ++ ['>'])).getD q '\x00' = c) :
    c = '>' ∧ q = name.length + email.length + 2 := by
  by_cases h1 : q < name.length
  · rw [List.getD_append _ _ _ _ h1, List.getD_eq_getElem _ _ h1] at hq
    exact absurd (hq ▸ List.getElem_mem _) hn
  · have h2 : name.length ≤ q := by omega
    rw [List.getD_append_right _ _ _ _ h2] at hq
    rcases hr : q - name.length with _ | r1
    · rw [hr] at hq
      simp [List.getD] at hq
      exact absurd hq.symm hsp
    · rw [hr] at hq
      rcases r1 with _ | r2
      · simp [List.getD] at hq
        exact absurd hq.symm hlt
      · simp only [List.getD] at hq
        rw [List.get?_cons_succ, List.get?_cons_succ] at hq
        by_cases h3 : r2 < email.length
        · rw [show ((email ++ ['>']).get? r2).getD '\x00' = (email ++ ['>']).getD r2 '\x00'
              from rfl, List.getD_append _ _ _ _ h3,
            List.getD_eq_getElem _ _ h3] at hq
          exact absurd (hq ▸ List.getElem_mem _) he
        · have h4 : email.length ≤ r2 := by omega
          rw [show ((email ++ ['>']).get? r2).getD '\x00' = (email ++ ['>']).getD r2 '\x00'
              from rfl, List.getD_append_right _ _ _ _ h4] at hq
          rcases hr2 : r2 - email.length with _ | r3
          · rw [hr2] at hq
            simp [List.getD] at hq
            exact ⟨hq.symm, by omega⟩
          · rw [hr2] at hq
            simp [List.getD] at hq
            exact absurd hq.symm hd

theorem author_rest_lt_pos (name email : List Char)
    (hn : '<' ∉ name) (he : '<' ∉ email) (q : Nat)
    (hq : (name ++ ' ' :: '<' :: (email ++ ['>'])).getD q '\x00' = '<') :
    q = name.length + 1 := by
  by_cases h1 : q < name.length
  · rw [List.getD_append _ _ _ _ h1, List.getD_eq_getElem _ _ h1] at hq
    exact absurd (hq ▸ List.getElem_mem _) hn
  · have h2 : name.length ≤ q := by omega
    rw [List.getD_append_right _ _ _ _ h2] at hq
    rcases hr : q - name.length with _ | r1
    · rw [hr] at hq
      simp [List.getD] at hq
    · rw [hr] at hq
      rcases r1 with _ | r2
      · omega
      · simp only [List.getD] at hq
        rw [List.get?_cons_succ, List.get?_cons_succ] at hq
        by_cases h3 : r2 < email.length
        · rw [show ((email ++ ['>']).get? r2).getD '\x00' = (email ++ ['>']).getD r2 '\x00'
              from rfl, List.getD_append _ _ _ _ h3,
            List.getD_eq_getElem _ _ h3] at hq
          exact absurd (hq ▸ List.getElem_mem _) he
        · have h4 : email.length ≤ r2 := by omega
          rw [show ((email ++ ['>']).get? r2).getD '\x00' = (email ++ ['>']).getD r2 '\x00'
              from rfl, List.getD_append_right _ _ _ _ h4] at hq
          rcases hr2 : r2 - email.length with _ | r3
          · rw [hr2] at hq
            simp [List.getD] at hq
          · rw [hr2] at hq
            simp [List.getD] at hq

theorem authorSplitOk_iff (name email : List Char)
    (hn0 : name ≠ []) (he0 : email ≠ [])
    (hnlt : '<' ∉ name) (hngt : '>' ∉ name) (hnnl : '\n' ∉ name)
    (helt : '<' ∉ email) (hegt : '>' ∉ email) (henl : '\n' ∉ email) (i j : Nat) :
    authorSplitOk (name ++ ' ' :: '<' :: (email ++ ['>'])) i j = true ↔
      i = name.length ∧ j = name.length + email.length + 2 := by
  constructor
  · intro h
    simp only [authorSplitOk, Bool.and_eq_true, decide_eq_true_eq] at h
    obtain ⟨⟨⟨⟨⟨⟨⟨h1, h2⟩, h3⟩, h4⟩, h5⟩, h6⟩, h7⟩, h8⟩ := h
    have hi := author_rest_lt_pos name email hnlt helt (i + 1) h6
    have hj := author_rest_char name email '>' hngt hegt (by decide) (by decide)
      (by decide) j h8
    exact ⟨by omega, hj.2⟩
  · rintro ⟨hi, hj⟩
    subst hi
    subst hj
    have hne : 0 < name.length := List.length_pos.mpr hn0
    have hee : 0 < email.length := List.length_pos.mpr he0
    have hsplit : name ++ ' ' :: '<' :: (email ++ ['>']) =
        (name ++ [' ', '<']) ++ (email ++ ['>']) := by simp
    simp only [authorSplitOk, Bool.and_eq_true, decide_eq_true_eq]
    refine ⟨⟨⟨⟨⟨⟨⟨by omega, by omega⟩, ?_⟩, ?_⟩, ?_⟩, ?_⟩, ?_⟩, ?_⟩
    · rw [author_rest_length]
      omega
    · rw [List.take_left]
      simp only [noNL, List.all_eq_true]
      intro c hc
      simp only [Bool.not_eq_true', decide_eq_false_iff_not]
      exact fun h => hnnl (h ▸ hc)
    · rw [List.getD_append_right _ _ _ _ (le_refl _), Nat.sub_self]
      rfl
    · rw [List.getD_append_right _ _ _ _ (by omega : name.length ≤ name.length + 1),
        show name.length + 1 - name.length = 1 from by omega]
      rfl
    · rw [hsplit, List.drop_left' (by simp),
        show name.length + email.length + 2 - (name.length + 2) = email.length
          from by omega, List.take_left]
      simp only [noNL, List.all_eq_true]
      intro c hc
      simp only [Bool.not_eq_true', decide_eq_false_iff_not]
      exact fun h => henl (h ▸ hc)
    · rw [List.getD_append_right _ _ _ _
          (by omega : name.length ≤ name.length + email.length + 2),
        show name.length + email.length + 2 - name.length = email.length + 2
          from by omega]
      simp only [List.getD, List.get?_cons_succ]
      rw [show ((email ++ ['>']).get? email.length).getD '\x00' =
            (email ++ ['>']).getD email.length '\x00' from rfl,
        List.getD_append_right _ _ _ _ (le_refl _), Nat.sub_self]
      rfl

theorem pyAuthorMatch_author_line (name email : List Char)
    (hn0 : name ≠ []) (he0 : email ≠ [])
    (hnlt : '<' ∉ name) (hngt : '>' ∉ name) (hnnl : '\n' ∉ name)
    (helt : '<' ∉ email) (hegt : '>' ∉ email) (henl : '\n' ∉ email) :
    pyAuthorMatch ("Author: ".toList ++ (name ++ ' ' :: '<' :: (email ++ ['>']))) =
      some (name, email) := by
  have hiff := authorSplitOk_iff name email hn0 he0 hnlt hngt hnnl helt hegt henl
  have hpre : ("Author: ".toList).isPrefixOf
      ("Author: ".toList ++ (name ++ ' ' :: '<' :: (email ++ ['>']))) = true :=
    isPrefixOf_self_append _ _
  have hdrop : ("Author: ".toList ++ (name ++ ' ' :: '<' :: (email ++ ['>']))).drop 8 =
      name ++ ' ' :: '<' :: (email ++ ['>']) :=
    List.drop_left' (by decide)
  have hlen := author_rest_length name email
  have hee : 0 < email.length := List.length_pos.mpr he0
  have houter : findMax (fun i =>
      (List.range (name ++ ' ' :: '<' :: (email ++ ['>'])).length).any
        (fun j => authorSplitOk (name ++ ' ' :: '<' :: (email ++ ['>'])) i j))
      (name ++ ' ' :: '<' :: (email ++ ['>'])).length = some name.length := by
    apply findMax_eq_some
    · omega
    · simp only [List.any_eq_true]
      exact ⟨name.length + email.length + 2, List.mem_range.mpr (by omega),
        (hiff _ _).mpr ⟨rfl, rfl⟩⟩
    · intro m hm1 hm2
      rw [← Bool.not_eq_true]
      simp only [List.any_eq_true, not_exists, not_and]
      intro j hj hok
      exact absurd ((hiff _ _).mp hok).1 (by omega)
  have hinner : findMax (fun j =>
      authorSplitOk (name ++ ' ' :: '<' :: (email ++ ['>'])) name.length j)
      (name ++ ' ' :: '<' :: (email ++ ['>'])).length =
      some (name.length + email.length + 2) := by
    apply findMax_eq_some
    · omega
    · exact (hiff _ _).mpr ⟨rfl, rfl⟩
    · intro m hm1 hm2
      rw [← Bool.not_eq_true]
      intro hok
      exact absurd ((hiff _ _).mp hok).2 (by omega)
  rw [pyAuthorMatch, if_pos hpre]
  simp only [hdrop, houter, hinner]
  rw [List.take_left,
    show name ++ ' ' :: '<' :: (email ++ ['>']) =
      (name ++ [' ', '<']) ++ (email ++ ['>']) from by simp,
    List.drop_left' (by simp),
    show name.length + email.length + 2 - (name.length + 2) = email.length
      from by omega, List.take_left]


/-! ### Stepping the parser over rendered entry lines -/

theorem all_no_angle {l : List Char}
    (h : l.all (fun c => !(c = '<' || c = '>' || c = '\n')) = true) :
    '<' ∉ l ∧ '>' ∉ l ∧ '\n' ∉ l := by
  rw [List.all_eq_true] at h
  refine ⟨fun hm => ?_, fun hm => ?_, fun hm => ?_⟩
  · have := h _ hm
    simp at this
  · have := h _ hm
    simp at this
  · have := h _ hm
    simp at this

theorem parseStep_blank (commits : List Commit) (cd : CommitData) :
    parseStep commits cd [] = .ok (commits, cd) := rfl

theorem parseStep_commit_line (commits : List Commit) (cd : CommitData)
    (hash : List Char) (h1 : hash ≠ []) (h2 : ∀ c ∈ hash, pyIsSpace c = false)
    (hcd : cdNonempty cd = false) :
    parseStep commits cd ("commit ".toList ++ hash) =
      .ok (commits, { emptyCD with hash := some hash }) := by
  have hpre : ("commit".toList).isPrefixOf ("commit ".toList ++ hash) = true := by
    rw [show "commit ".toList ++ hash = "commit".toList ++ (' ' :: hash) from rfl]
    exact isPrefixOf_self_append _ _
  rw [parseStep, if_pos hpre, hcd]
  simp only [Bool.false_eq_true, if_false]
  rw [pySplitWs_commit_line hash h1 h2]

theorem parseStep_commit_line_full (commits : List Commit) (e : Entry)
    (hash : List Char) (h1 : hash ≠ []) (h2 : ∀ c ∈ hash, pyIsSpace c = false) :
    parseStep commits (fullCD e) ("commit ".toList ++ hash) =
      .ok (commits ++ [entryCommit e], { emptyCD with hash := some hash }) := by
  have hpre : ("commit".toList).isPrefixOf ("commit ".toList ++ hash) = true := by
    rw [show "commit ".toList ++ hash = "commit".toList ++ (' ' :: hash) from rfl]
    exact isPrefixOf_self_append _ _
  rw [parseStep, if_pos hpre]
  rw [show cdNonempty (fullCD e) = true from rfl]
  simp only [if_true]
  rw [show create_commit (fullCD e) = .ok (entryCommit e) from rfl]
  simp only [Except.map]
  rw [pySplitWs_commit_line hash h1 h2]

theorem parseStep_author_line (commits : List Commit) (cd : CommitData)
    (name email : List Char) (hn0 : name ≠ []) (he0 : email ≠ [])
    (hna : name.all (fun c => !(c = '<' || c = '>' || c = '\n')) = true)
    (hea : email.all (fun c => !(c = '<' || c = '>' || c = '\n')) = true)
    (hsn : pyStrip name = name) (hse : pyStrip email = email) :
    parseStep commits cd
        ("Author: ".toList ++ (name ++ ' ' :: '<' :: (email ++ ['>']))) =
      .ok (commits, { cd with name := some name, email := some email }) := by
  obtain ⟨hnlt, hngt, hnnl⟩ := all_no_angle hna
  obtain ⟨helt, hegt, henl⟩ := all_no_angle hea
  have hnc : ("commit".toList).isPrefixOf
      ("Author: ".toList ++ (name ++ ' ' :: '<' :: (email ++ ['>']))) = false := by
    rw [show "Author: ".toList ++ (name ++ ' ' :: '<' :: (email ++ ['>'])) =
      'A' :: ("uthor: ".toList ++ (name ++ ' ' :: '<' :: (email ++ ['>']))) from rfl]
    exact isPrefixOf_cons_false _ _ (by decide)
  have hpa : ("Author:".toList).isPrefixOf
      ("Author: ".toList ++ (name ++ ' ' :: '<' :: (email ++ ['>']))) = true := by
    rw [show "Author: ".toList ++ (name ++ ' ' :: '<' :: (email ++ ['>'])) =
      "Author:".toList ++ (' ' :: (name ++ ' ' :: '<' :: (email ++ ['>']))) from rfl]
    exact isPrefixOf_self_append _ _
  rw [parseStep, if_neg (by simp [hnc]), if_pos hpa,
    pyAuthorMatch_author_line name email hn0 he0 hnlt hngt hnnl helt hegt henl]
  simp only [hsn, hse]

theorem parseStep_date_line (commits : List Commit) (cd : CommitData)
    (date : List Char) (hsd : pyStrip date = date) :
    parseStep commits cd ("Date:   ".toList ++ date) =
      .ok (commits, { cd with date := some date }) := by
  have hnc : ("commit".toList).isPrefixOf ("Date:   ".toList ++ date) = false := by
    rw [show "Date:   ".toList ++ date = 'D' :: ("ate:   ".toList ++ date) from rfl]
    exact isPrefixOf_cons_false _ _ (by decide)
  have hna : ("Author:".toList).isPrefixOf ("Date:   ".toList ++ date) = false := by
    rw [show "Date:   ".toList ++ date = 'D' :: ("ate:   ".toList ++ date) from rfl]
    exact isPrefixOf_cons_false _ _ (by decide)
  have hpd : ("Date:".toList).isPrefixOf ("Date:   ".toList ++ date) = true := by
    rw [show "Date:   ".toList ++ date =
      "Date:".toList ++ (' ' :: ' ' :: ' ' :: date) from rfl]
    exact isPrefixOf_self_append _ _
  rw [parseStep, if_neg (by simp [hnc]), if_neg (by simp [hna]), if_pos hpd,
    show (splitFirstColon ("Date:   ".toList ++ date)).2 =
      some (' ' :: ' ' :: ' ' :: date) from rfl]
  simp only [pyStrip_cons_space, hsd]

theorem parseStep_subject_line (commits : List Commit) (cd : CommitData)
    (subject : List Char) (h0 : subject ≠ []) (hss : pyStrip subject = subject) :
    parseStep commits cd ("    ".toList ++ subject) =
      .ok (commits, { cd with subject := some subject }) := by
  show parseStep commits cd (' ' :: ' ' :: ' ' :: ' ' :: subject) = _
  have hnc : ("commit".toList).isPrefixOf (' ' :: ' ' :: ' ' :: ' ' :: subject) = false :=
    isPrefixOf_cons_false _ _ (by decide)
  have hna : ("Author:".toList).isPrefixOf (' ' :: ' ' :: ' ' :: ' ' :: subject) = false :=
    isPrefixOf_cons_false _ _ (by decide)
  have hnd : ("Date:".toList).isPrefixOf (' ' :: ' ' :: ' ' :: ' ' :: subject) = false :=
    isPrefixOf_cons_false _ _ (by decide)
  have hcond : pyStrip (' ' :: ' ' :: ' ' :: ' ' :: subject) ≠ [] := by
    rw [pyStrip_cons_space, pyStrip_cons_space, pyStrip_cons_space,
      pyStrip_cons_space, hss]
    exact h0
  rw [parseStep, if_neg (by simp [hnc]), if_neg (by simp [hna]),
    if_neg (by simp [hnd]), if_pos hcond]
  simp only [pyStrip_cons_space, hss]


/-! ### Parsing whole well-formed entries -/

theorem parseLines_cons_ok (l : List Char) (ls : List (List Char))
    (commits : List Commit) (cd : CommitData) (commits' : List Commit)
    (cd' : CommitData) (h : parseStep commits cd l = .ok (commits', cd')) :
    parseLines (l :: ls) commits cd = parseLines ls commits' cd' := by
  simp only [parseLines, h]

theorem wfEntry_unpack (e : Entry) (he : wfEntry e = true) :
    (e.hash ≠ [] ∧ ∀ c ∈ e.hash, pyIsSpace c = false) ∧
    (e.name ≠ [] ∧ e.name.all (fun c => !(c = '<' || c = '>' || c = '\n')) = true ∧
      pyStrip e.name = e.name) ∧
    (e.email ≠ [] ∧ e.email.all (fun c => !(c = '<' || c = '>' || c = '\n')) = true ∧
      pyStrip e.email = e.email) ∧
    pyStrip e.date = e.date ∧
    (e.subject ≠ [] ∧ pyStrip e.subject = e.subject) := by
  simp only [wfEntry, Bool.and_eq_true, decide_eq_true_eq, List.all_eq_true] at he
  obtain ⟨⟨⟨⟨⟨⟨⟨⟨⟨⟨h1, h2⟩, h3⟩, h4⟩, h5⟩, h6⟩, h7⟩, h8⟩, h9⟩, h10⟩, h11⟩ := he
  refine ⟨⟨h1, fun c hc => ?_⟩, ⟨h3, List.all_eq_true.mpr h4, h5⟩,
    ⟨h6, List.all_eq_true.mpr h7, h8⟩, h9, h10, h11⟩
  have := h2 c hc
  simpa using this

theorem parseLines_entry_from_empty (e : Entry) (he : wfEntry e = true)
    (ls : List (List Char)) (commits : List Commit) :
    parseLines (renderEntry e ++ ls) commits emptyCD =
      parseLines ls commits (fullCD e) := by
  obtain ⟨⟨hh1, hh2⟩, ⟨hn0, hna, hsn⟩, ⟨he0, hea, hse⟩, hsd, hs0, hss⟩ :=
    wfEntry_unpack e he
  rw [show renderEntry e ++ ls =
    ("commit ".toList ++ e.hash) ::
    ("Author: ".toList ++ (e.name ++ ' ' :: '<' :: (e.email ++ ['>']))) ::
    ("Date:   ".toList ++ e.date) :: [] :: ("    ".toList ++ e.subject) :: ls
    from rfl]
  rw [parseLines_cons_ok _ _ _ _ _ _
      (parseStep_commit_line commits emptyCD e.hash hh1 hh2 rfl),
    parseLines_cons_ok _ _ _ _ _ _
      (parseStep_author_line _ _ e.name e.email hn0 he0 hna hea hsn hse),
    parseLines_cons_ok _ _ _ _ _ _ (parseStep_date_line _ _ e.date hsd),
    parseLines_cons_ok _ _ _ _ _ _ (parseStep_blank _ _),
    parseLines_cons_ok _ _ _ _ _ _
      (parseStep_subject_line _ _ e.subject hs0 hss)]
  exact rfl

theorem parseLines_entry_from_full (e prev : Entry) (he : wfEntry e = true)
    (ls : List (List Char)) (commits : List Commit) :
    parseLines (renderEntry e ++ ls) commits (fullCD prev) =
      parseLines ls (commits ++ [entryCommit prev]) (fullCD e) := by
  obtain ⟨⟨hh1, hh2⟩, ⟨hn0, hna, hsn⟩, ⟨he0, hea, hse⟩, hsd, hs0, hss⟩ :=
    wfEntry_unpack e he
  rw [show renderEntry e ++ ls =
    ("commit ".toList ++ e.hash) ::
    ("Author: ".toList ++ (e.name ++ ' ' :: '<' :: (e.email ++ ['>']))) ::
    ("Date:   ".toList ++ e.date) :: [] :: ("    ".toList ++ e.subject) :: ls
    from rfl]
  rw [parseLines_cons_ok _ _ _ _ _ _
      (parseStep_commit_line_full commits prev e.hash hh1 hh2),
    parseLines_cons_ok _ _ _ _ _ _
      (parseStep_author_line _ _ e.name e.email hn0 he0 hna hea hsn hse),
    parseLines_cons_ok _ _ _ _ _ _ (parseStep_date_line _ _ e.date hsd),
    parseLines_cons_ok _ _ _ _ _ _ (parseStep_blank _ _),
    parseLines_cons_ok _ _ _ _ _ _
      (parseStep_subject_line _ _ e.subject hs0 hss)]
  exact rfl

theorem parseLines_entry_chain (es : List Entry) (e : Entry)
    (hes : ∀ x ∈ es, wfEntry x = true) (commits : List Commit) :
    parseLines ((es.map renderEntry).flatten) commits (fullCD e) =
      .ok (commits ++ (leadEntries es e).map entryCommit,
           fullCD (lastEntry es e)) := by
  induction es generalizing e commits with
  | nil => simp [parseLines, leadEntries, lastEntry]
  | cons x xs ih =>
    rw [List.map_cons, List.flatten_cons,
      parseLines_entry_from_full x e (hes x (by simp)) _ commits,
      ih x (fun y hy => hes y (by simp [hy])) (commits ++ [entryCommit e])]
    simp [leadEntries, lastEntry]

theorem leadEntries_lastEntry (es : List Entry) (e : Entry) :
    leadEntries es e ++ [lastEntry es e] = e :: es := by
  induction es generalizing e with
  | nil => simp [leadEntries, lastEntry]
  | cons x xs ih => simp [leadEntries, lastEntry, ih]

/-- C5: a well-formed log text of `N` entries parses to exactly the `N`
corresponding records, in input order, each with the hash taken from its
`commit` line. -/
theorem c5_parse_wellformed_entries (es : List Entry)
    (hes : ∀ x ∈ es, wfEntry x = true) :
    parse_git_log ((es.map renderEntry).flatten) = .ok (es.map entryCommit) := by
  cases es with
  | nil => rfl
  | cons e es0 =>
    rw [List.map_cons, List.flatten_cons, parse_git_log,
      show (renderEntry e ++ (es0.map renderEntry).flatten).isEmpty = false from rfl]
    simp only [Bool.false_eq_true, if_false]
    rw [parseLines_entry_from_empty e (hes e (by simp)) _ [],
      parseLines_entry_chain es0 e (fun y hy => hes y (by simp [hy])) []]
    rw [← show (leadEntries es0 e).map entryCommit ++
          [entryCommit (lastEntry es0 e)] = (e :: es0).map entryCommit from by
        rw [show [entryCommit (lastEntry es0 e)] =
            [lastEntry es0 e].map entryCommit from rfl,
          ← List.map_append, leadEntries_lastEntry]]
    exact rfl

/-- C5 witness: the spec's end-to-end example input parses to two records
in order, the first with hash `abc123` and subject `Fix bug`. -/
theorem c5_parse_wellformed_entries_witness :
    parse_git_log ((([⟨"abc123".toList, "Jane Doe".toList,
          "jane@example.com".toList, "Tue Oct 8 11:59:23 2024 +0300".toList,
          "Fix bug".toList⟩,
        ⟨"def456".toList, "John Roe".toList, "john@example.com".toList,
          "Mon Oct 7 10:00:00 2024 +0300".toList, "Add feature".toList⟩] :
        List Entry).map renderEntry).flatten) =
      .ok [⟨"abc123".toList, "Jane Doe".toList, "jane@example.com".toList,
            "Tue Oct 8 11:59:23 2024 +0300".toList, "Fix bug".toList⟩,
           ⟨"def456".toList, "John Roe".toList, "john@example.com".toList,
            "Mon Oct 7 10:00:00 2024 +0300".toList, "Add feature".toList⟩] :=
  c5_parse_wellformed_entries _ (by decide)


/-! ### Record count equals count of commit lines -/

theorem create_commit_ok_hash (cd : CommitData) (c : Commit)
    (h : create_commit cd = .ok c) : cd.hash.isSome = true := by
  rw [create_commit] at h
  cases hh : cd.hash with
  | none => rw [hh] at h; cases h
  | some x => rfl

theorem cdNonempty_false_hash (cd : CommitData) (h : cdNonempty cd = false) :
    cd.hash = none := by
  cases hh : cd.hash with
  | none => rfl
  | some x =>
    rw [cdNonempty, hh] at h
    simp at h

theorem parseStep_cases (commits : List Commit) (cd : CommitData)
    (l : List Char) (st : List Commit × CommitData)
    (h : parseStep commits cd l = .ok st) :
    (("commit".toList).isPrefixOf l = true ∧ st.2.hash.isSome = true ∧
      st.1.length = commits.length + (if cd.hash.isSome = true then 1 else 0)) ∨
    (("commit".toList).isPrefixOf l = false ∧ st.1 = commits ∧
      st.2.hash = cd.hash) := by
  unfold parseStep at h
  by_cases hc : ("commit".toList).isPrefixOf l = true
  · left
    refine ⟨hc, ?_⟩
    rw [if_pos hc] at h
    by_cases hcd : cdNonempty cd = true
    · rw [if_pos hcd] at h
      cases hcc : create_commit cd with
      | error e =>
        rw [hcc] at h
        simp [Except.map] at h
      | ok c =>
        rw [hcc] at h
        simp only [Except.map] at h
        rcases hsp : pySplitWs l with _ | ⟨a, _ | ⟨b, rest⟩⟩ <;> rw [hsp] at h
        · cases h
        · cases h
        · cases h
          rw [create_commit_ok_hash cd c hcc]
          simp
    · rw [if_neg hcd] at h
      have hn : cd.hash = none := cdNonempty_false_hash cd (by
        cases hx : cdNonempty cd
        · rfl
        · exact absurd hx hcd)
      rcases hsp : pySplitWs l with _ | ⟨a, _ | ⟨b, rest⟩⟩ <;> rw [hsp] at h
      · cases h
      · cases h
      · cases h
        rw [hn]
        simp
  · right
    have hc' : ("commit".toList).isPrefixOf l = false := by
      cases hx : ("commit".toList).isPrefixOf l
      · rfl
      · exact absurd hx hc
    refine ⟨hc', ?_⟩
    rw [if_neg hc] at h
    by_cases ha : ("Author:".toList).isPrefixOf l = true
    · rw [if_pos ha] at h
      cases hm : pyAuthorMatch l with
      | some g => rw [hm] at h; cases h; exact ⟨rfl, rfl⟩
      | none => rw [hm] at h; cases h; exact ⟨rfl, rfl⟩
    · rw [if_neg ha] at h
      by_cases hd : ("Date:".toList).isPrefixOf l = true
      · rw [if_pos hd] at h
        cases hs : (splitFirstColon l).2 with
        | some rest => rw [hs] at h; cases h; exact ⟨rfl, rfl⟩
        | none => rw [hs] at h; cases h
      · rw [if_neg hd] at h
        by_cases hst : pyStrip l ≠ []
        · rw [if_pos hst] at h
          cases h
          exact ⟨rfl, rfl⟩
        · rw [if_neg hst] at h
          cases h
          exact ⟨rfl, rfl⟩

theorem countCommitLines_cons_pos (l : List Char) (ls : List (List Char))
    (h : ("commit".toList).isPrefixOf l = true) :
    countCommitLines (l :: ls) = countCommitLines ls + 1 := by
  rw [countCommitLines, countCommitLines, List.countP_cons_of_pos _ _ h]

theorem countCommitLines_cons_neg (l : List Char) (ls : List (List Char))
    (h : ("commit".toList).isPrefixOf l = false) :
    countCommitLines (l :: ls) = countCommitLines ls := by
  rw [countCommitLines, countCommitLines,
    List.countP_cons_of_neg _ _ (by rw [h]; simp)]

theorem parseLines_count (lines : List (List Char)) :
    ∀ (commits : List Commit) (cd : CommitData) (st : List Commit × CommitData),
    parseLines lines commits cd = .ok st →
    st.1.length + (if st.2.hash.isSome = true then 1 else 0) =
      commits.length + (if cd.hash.isSome = true then 1 else 0) +
        countCommitLines lines := by
  induction lines with
  | nil =>
    intro commits cd st h
    simp only [parseLines] at h
    cases h
    simp [countCommitLines]
  | cons l ls ih =>
    intro commits cd st h
    cases hs : parseStep commits cd l with
    | error e =>
      simp only [parseLines, hs] at h
      cases h
    | ok st1 =>
      simp only [parseLines, hs] at h
      have hrec := ih st1.1 st1.2 st h
      rcases parseStep_cases commits cd l st1 hs with
        ⟨hc, hh, hlen⟩ | ⟨hc, heq, hh⟩
      · rw [countCommitLines_cons_pos _ _ hc]
        have h1 : (if st1.2.hash.isSome = true then 1 else 0) = 1 := by
          rw [hh]
          decide
        rw [h1, hlen] at hrec
        omega
      · rw [countCommitLines_cons_neg _ _ hc]
        rw [heq, hh] at hrec
        omega

/-- C9: whenever `parse_git_log` returns a list, its length equals the
number of input lines on which `line.startswith("commit")` holds; in
particular blank or empty input yields the empty list. -/
theorem c9_record_count (lines : List (List Char)) (res : List Commit)
    (h : parse_git_log lines = .ok res) :
    res.length = countCommitLines lines := by
  rw [parse_git_log] at h
  by_cases he : lines.isEmpty = true
  · rw [if_pos he] at h
    cases h
    rw [List.isEmpty_iff] at he
    subst he
    rfl
  · rw [if_neg he] at h
    cases hp : parseLines lines [] emptyCD with
    | error e => rw [hp] at h; cases h
    | ok st =>
      obtain ⟨cs, cd⟩ := st
      rw [hp] at h
      have hm := parseLines_count lines [] emptyCD (cs, cd) hp
      have hred : (match (Except.ok (cs, cd) :
            Except String (List Commit × CommitData)) with
          | Except.error e => (Except.error e : Except String (List Commit))
          | Except.ok (commits, cd) =>
            if cdNonempty cd = true then
              match create_commit cd with
              | Except.error e => Except.error e
              | Except.ok c => Except.ok (commits ++ [c])
            else Except.ok commits) =
          (if cdNonempty cd = true then
            match create_commit cd with
            | Except.error e => Except.error e
            | Except.ok c => Except.ok (cs ++ [c])
          else Except.ok cs) := rfl
      rw [hred] at h
      by_cases hcd : cdNonempty cd = true
      · rw [if_pos hcd] at h
        cases hcc : create_commit cd with
        | error e => rw [hcc] at h; cases h
        | ok c =>
          rw [hcc] at h
          cases h
          have hh := create_commit_ok_hash cd c hcc
          have h1 : (if cd.hash.isSome = true then 1 else 0) = 1 := by
            rw [hh]
            decide
          rw [h1] at hm
          simp only [emptyCD] at hm
          simp at hm
          simp only [List.length_append, List.length_cons, List.length_nil]
          omega
      · rw [if_neg hcd] at h
        cases h
        have hn : cd.hash = none := cdNonempty_false_hash cd (by
          cases hx : cdNonempty cd
          · rfl
          · exact absurd hx hcd)
        have h1 : (if cd.hash.isSome = true then 1 else 0) = 0 := by
          rw [hn]
          decide
        rw [h1] at hm
        simp only [emptyCD] at hm
        simp at hm
        omega

/-- C9 witness: a concrete two-entry input has exactly two lines starting
with `commit` and parses to exactly two records. -/
theorem c9_record_count_witness :
    ([⟨"abc123".toList, "Jane Doe".toList, "jane@example.com".toList,
        "Tue Oct 8 11:59:23 2024 +0300".toList, "Fix bug".toList⟩,
      ⟨"def456".toList, "John Roe".toList, "john@example.com".toList,
        "Mon Oct 7 10:00:00 2024 +0300".toList, "Add feature".toList⟩] :
      List Commit).length = countCommitLines
      ["commit abc123".toList, "Author: Jane Doe <jane@example.com>".toList,
       "Date:   Tue Oct 8 11:59:23 2024 +0300".toList, "".toList,
       "    Fix bug".toList, "commit def456".toList,
       "Author: John Roe <john@example.com>".toList,
       "Date:   Mon Oct 7 10:00:00 2024 +0300".toList, "".toList,
       "    Add feature".toList] :=
  c9_record_count _ _ (by decide)


/-! ### Degraded author lines and repeated subject lines -/

theorem parseStep_author_nomatch (commits : List Commit) (cd : CommitData)
    (a : List Char) (h1 : ("commit".toList).isPrefixOf a = false)
    (h2 : ("Author:".toList).isPrefixOf a = true)
    (h3 : pyAuthorMatch a = none) :
    parseStep commits cd a = .ok (commits, cd) := by
  rw [parseStep, if_neg (by rw [h1]; decide), if_pos h2, h3]

theorem parseStep_other_line (commits : List Commit) (cd : CommitData)
    (t : List Char) (h1 : ("commit".toList).isPrefixOf t = false)
    (h2 : ("Author:".toList).isPrefixOf t = false)
    (h3 : ("Date:".toList).isPrefixOf t = false)
    (h4 : pyStrip t ≠ []) :
    parseStep commits cd t = .ok (commits, { cd with subject := some (pyStrip t) }) := by
  rw [parseStep, if_neg (by rw [h1]; decide), if_neg (by rw [h2]; decide),
    if_neg (by rw [h3]; decide), if_pos h4]

/-- C3 amended: an entry whose `Author:` line does not match the
`name <email>` pattern leaves the name and email keys unset, and
`parse_git_log` fails with `KeyError: name` at record assembly instead of
producing a record with empty name and email. -/
theorem c3_amended_author_keyerror (hash date subject a : List Char)
    (hh1 : hash ≠ []) (hh2 : ∀ c ∈ hash, pyIsSpace c = false)
    (ha1 : ("commit".toList).isPrefixOf a = false)
    (ha2 : ("Author:".toList).isPrefixOf a = true)
    (ha3 : pyAuthorMatch a = none)
    (hsd : pyStrip date = date)
    (hs0 : subject ≠ []) (hss : pyStrip subject = subject) :
    parse_git_log [("commit ".toList ++ hash), a, ("Date:   ".toList ++ date),
        [], ("    ".toList ++ subject)] = .error "KeyError: name" := by
  rw [parse_git_log,
    show ([("commit ".toList ++ hash), a, ("Date:   ".toList ++ date),
      [], ("    ".toList ++ subject)] : List (List Char)).isEmpty = false from rfl]
  simp only [Bool.false_eq_true, if_false]
  rw [parseLines_cons_ok _ _ _ _ _ _
      (parseStep_commit_line [] emptyCD hash hh1 hh2 rfl),
    parseLines_cons_ok _ _ _ _ _ _ (parseStep_author_nomatch _ _ a ha1 ha2 ha3),
    parseLines_cons_ok _ _ _ _ _ _ (parseStep_date_line _ _ date hsd),
    parseLines_cons_ok _ _ _ _ _ _ (parseStep_blank _ _),
    parseLines_cons_ok _ _ _ _ _ _ (parseStep_subject_line _ _ subject hs0 hss)]
  exact rfl

/-- C3 amended witness at a concrete non-matching author line. -/
theorem c3_amended_author_keyerror_witness :
    parse_git_log [("commit ".toList ++ "abc".toList),
        "Author: bogus".toList, ("Date:   ".toList ++ "d".toList),
        [], ("    ".toList ++ "subj".toList)] = .error "KeyError: name" :=
  c3_amended_author_keyerror "abc".toList "d".toList "subj".toList
    "Author: bogus".toList (by decide) (by decide) (by decide) (by decide)
    (by decide) (by decide) (by decide) (by decide)

/-- C4 amended: after a complete well-formed entry, one more non-blank
line that is not a `commit`/`Author:`/`Date:` line overwrites the subject:
the record's subject is the stripped last such line, not the first. -/
theorem c4_amended_last_subject (e : Entry) (he : wfEntry e = true)
    (t : List Char) (h1 : ("commit".toList).isPrefixOf t = false)
    (h2 : ("Author:".toList).isPrefixOf t = false)
    (h3 : ("Date:".toList).isPrefixOf t = false)
    (h4 : pyStrip t ≠ []) :
    parse_git_log (renderEntry e ++ [t]) =
      .ok [⟨e.hash, e.name, e.email, e.date, pyStrip t⟩] := by
  rw [parse_git_log,
    show (renderEntry e ++ [t]).isEmpty = false from rfl]
  simp only [Bool.false_eq_true, if_false]
  rw [parseLines_entry_from_empty e he [t] [],
    parseLines_cons_ok _ _ _ _ _ _ (parseStep_other_line _ _ t h1 h2 h3 h4)]
  exact rfl

/-- C4 amended witness: with subject lines `first` then `second`, the
parsed subject is `second`. -/
theorem c4_amended_last_subject_witness :
    parse_git_log (renderEntry ⟨"abc".toList, "A".toList, "a@b".toList,
        "d".toList, "first".toList⟩ ++ ["    second".toList]) =
      .ok [⟨"abc".toList, "A".toList, "a@b".toList, "d".toList,
           pyStrip ("    second".toList)⟩] :=
  c4_amended_last_subject _ (by decide) _ (by decide) (by decide) (by decide)
    (by decide)


/-! ### Digit rendering and parsing -/

theorem digitChar_props (n : Nat) (h : n < 10) :
    (digitChar n).isDigit = true ∧ digitVal (digitChar n) = n ∧
    pyIsSpace (digitChar n) = false ∧ ¬digitChar n = ':' ∧
    ¬digitChar n = '.' ∧ ¬digitChar n = 'Z' := by
  interval_cases n <;> exact ⟨rfl, rfl, rfl, by decide, by decide, by decide⟩

theorem parseNum2_two0 (two one : Nat → Bool) (v : Nat) (hv : v ≤ 99)
    (ht : two v = true) (rest : List Char) :
    parseNum2 two one (two0 v ++ rest) = some (v, rest) := by
  show parseNum2 two one (digitChar (v / 10 % 10) :: digitChar (v % 10) :: rest) =
    some (v, rest)
  have h1 := digitChar_props (v / 10 % 10) (Nat.mod_lt _ (by omega))
  have h2 := digitChar_props (v % 10) (Nat.mod_lt _ (by omega))
  have e : 10 * digitVal (digitChar (v / 10 % 10)) +
      digitVal (digitChar (v % 10)) = v := by
    rw [h1.2.1, h2.2.1]
    omega
  simp only [parseNum2, h1.1, h2.1, e, ht, Bool.and_self, Bool.true_and, if_true]

theorem parseNum2_one_digit (two one : Nat → Bool) (v : Nat) (hv : v < 10)
    (hone : one v = true) (c : Char) (rest : List Char)
    (hc : c.isDigit = false) :
    parseNum2 two one (digitChar v :: c :: rest) = some (v, c :: rest) := by
  have h1 := digitChar_props v hv
  simp only [parseNum2, h1.1, hc, Bool.true_and, Bool.and_false, Bool.false_and,
    Bool.false_eq_true, if_false, h1.2.1, hone, Bool.and_true, if_true]

theorem parse4Digits_four0 (y : Nat) (hy : y ≤ 9999) (rest : List Char) :
    parse4Digits (four0 y ++ rest) = some (y, rest) := by
  show parse4Digits (digitChar (y / 1000 % 10) :: digitChar (y / 100 % 10) ::
    digitChar (y / 10 % 10) :: digitChar (y % 10) :: rest) = some (y, rest)
  have h1 := digitChar_props (y / 1000 % 10) (Nat.mod_lt _ (by omega))
  have h2 := digitChar_props (y / 100 % 10) (Nat.mod_lt _ (by omega))
  have h3 := digitChar_props (y / 10 % 10) (Nat.mod_lt _ (by omega))
  have h4 := digitChar_props (y % 10) (Nat.mod_lt _ (by omega))
  have e : 1000 * digitVal (digitChar (y / 1000 % 10)) +
      100 * digitVal (digitChar (y / 100 % 10)) +
      10 * digitVal (digitChar (y / 10 % 10)) +
      digitVal (digitChar (y % 10)) = y := by
    rw [h1.2.1, h2.2.1, h3.2.1, h4.2.1]
    omega
  simp only [parse4Digits, h1.1, h2.1, h3.1, h4.1, e, Bool.and_self, if_true]

theorem parseWs1_one (c : Char) (l : List Char) (hc : pyIsSpace c = false) :
    parseWs1 (' ' :: c :: l) = some (c :: l) := by
  simp only [parseWs1, show pyIsSpace ' ' = true from rfl, if_true,
    List.dropWhile_cons, hc, Bool.false_eq_true, if_false]

theorem parseWs1_two (c : Char) (l : List Char) (hc : pyIsSpace c = false) :
    parseWs1 (' ' :: ' ' :: c :: l) = some (c :: l) := by
  simp only [parseWs1, show pyIsSpace ' ' = true from rfl, if_true,
    List.dropWhile_cons, hc, Bool.false_eq_true, if_false]

theorem parseChar_cons (c : Char) (l : List Char) :
    parseChar c (c :: l) = some l := by
  simp [parseChar]

theorem parse05pair_two0 (v : Nat) (hv : v ≤ 59) (rest : List Char) :
    parse05pair (two0 v ++ rest) = some (v, rest) := by
  show parse05pair (digitChar (v / 10 % 10) :: digitChar (v % 10) :: rest) =
    some (v, rest)
  have h1 := digitChar_props (v / 10 % 10) (Nat.mod_lt _ (by omega))
  have h2 := digitChar_props (v % 10) (Nat.mod_lt _ (by omega))
  have e : 10 * digitVal (digitChar (v / 10 % 10)) +
      digitVal (digitChar (v % 10)) = v := by
    rw [h1.2.1, h2.2.1]
    omega
  have hle : digitVal (digitChar (v / 10 % 10)) ≤ 5 := by
    rw [h1.2.1]
    omega
  simp only [parse05pair, h1.1, h2.1, e, hle, decide_eq_true_eq, Bool.true_and,
    Bool.and_true, decide_True, if_true, decide_eq_true (by omega : v / 10 % 10 ≤ 5)]


/-! ### The offset directive on whole-minute offsets -/

theorem fmtYear_four0 (y : Nat) (hy : 1000 ≤ y) : fmtYear y = four0 y := by
  rw [fmtYear, if_pos hy]

theorem fmtZ_pos (oh om : Nat) (hh : oh ≤ 23) (hm : om ≤ 59) :
    fmtZ (((oh * 3600 + om * 60) * 1000000 : Nat) : Int) =
      '+' :: (two0 oh ++ two0 om) := by
  have hs : ¬((((oh * 3600 + om * 60) * 1000000 : Nat) : Int) < 0) := by
    exact not_lt.mpr (Int.natCast_nonneg _)
  have ha : ((((oh * 3600 + om * 60) * 1000000 : Nat) : Int)).natAbs =
      (oh * 3600 + om * 60) * 1000000 := Int.natAbs_ofNat _
  rw [fmtZ]
  simp only [ha, if_neg hs]
  rw [show (oh * 3600 + om * 60) * 1000000 % 1000000 = 0 from by omega,
    show (oh * 3600 + om * 60) * 1000000 / 1000000 % 60 = 0 from by omega,
    show (oh * 3600 + om * 60) * 1000000 / 3600000000 = oh from by omega,
    show (oh * 3600 + om * 60) * 1000000 / 60000000 % 60 = om from by omega]
  simp

theorem fmtZ_neg (oh om : Nat) (hh : oh ≤ 23) (hm : om ≤ 59)
    (h0 : ¬(oh = 0 ∧ om = 0)) :
    fmtZ (-(((oh * 3600 + om * 60) * 1000000 : Nat) : Int)) =
      '-' :: (two0 oh ++ two0 om) := by
  have hpos : 0 < (oh * 3600 + om * 60) * 1000000 := by
    rcases Nat.eq_zero_or_pos oh with h | h
    · rcases Nat.eq_zero_or_pos om with h2 | h2
      · exact absurd ⟨h, h2⟩ h0
      · omega
    · omega
  have hs : (-(((oh * 3600 + om * 60) * 1000000 : Nat) : Int)) < 0 := by
    omega
  have ha : (-(((oh * 3600 + om * 60) * 1000000 : Nat) : Int)).natAbs =
      (oh * 3600 + om * 60) * 1000000 := by
    rw [Int.natAbs_neg, Int.natAbs_ofNat]
  rw [fmtZ]
  simp only [ha, if_pos hs]
  rw [show (oh * 3600 + om * 60) * 1000000 % 1000000 = 0 from by omega,
    show (oh * 3600 + om * 60) * 1000000 / 1000000 % 60 = 0 from by omega,
    show (oh * 3600 + om * 60) * 1000000 / 3600000000 = oh from by omega,
    show (oh * 3600 + om * 60) * 1000000 / 60000000 % 60 = om from by omega]
  simp

theorem parseZ_plus (oh om : Nat) (hh : oh ≤ 23) (hm : om ≤ 59) :
    parseZ ('+' :: (two0 oh ++ two0 om)) =
      some ((((oh * 3600 + om * 60) * 1000000 : Nat) : Int), []) := by
  have h1 := digitChar_props (oh / 10 % 10) (Nat.mod_lt _ (by omega))
  have h2 := digitChar_props (oh % 10) (Nat.mod_lt _ (by omega))
  have hoc : parseOptColon (two0 om) = two0 om := by
    show parseOptColon (digitChar (om / 10 % 10) :: [digitChar (om % 10)]) = _
    rw [parseOptColon,
      if_neg (digitChar_props (om / 10 % 10) (Nat.mod_lt _ (by omega))).2.2.2.1]
    rfl
  have hp5 : parse05pair (two0 om) = some (om, []) := by
    have h := parse05pair_two0 om hm []
    rwa [List.append_nil] at h
  show parseZ ('+' :: digitChar (oh / 10 % 10) :: digitChar (oh % 10) ::
    (two0 om ++ [])) = _
  rw [show two0 om ++ ([] : List Char) = two0 om from by simp, parseZ]
  simp only [h1.1, h2.1, Bool.and_self, if_true, hoc, hp5,
    show parseZSec [] = (0, []) from rfl,
    if_neg (show ¬('+' : Char) = '-' from by decide),
    h1.2.1, h2.2.1]
  · rw [if_pos (by decide)]
    simp only [Option.some.injEq, Prod.mk.injEq]
    exact ⟨by omega, trivial⟩
  · decide

theorem parseZ_minus (oh om : Nat) (hh : oh ≤ 23) (hm : om ≤ 59) :
    parseZ ('-' :: (two0 oh ++ two0 om)) =
      some (-(((oh * 3600 + om * 60) * 1000000 : Nat) : Int), []) := by
  have h1 := digitChar_props (oh / 10 % 10) (Nat.mod_lt _ (by omega))
  have h2 := digitChar_props (oh % 10) (Nat.mod_lt _ (by omega))
  have hoc : parseOptColon (two0 om) = two0 om := by
    show parseOptColon (digitChar (om / 10 % 10) :: [digitChar (om % 10)]) = _
    rw [parseOptColon,
      if_neg (digitChar_props (om / 10 % 10) (Nat.mod_lt _ (by omega))).2.2.2.1]
    rfl
  have hp5 : parse05pair (two0 om) = some (om, []) := by
    have h := parse05pair_two0 om hm []
    rwa [List.append_nil] at h
  show parseZ ('-' :: digitChar (oh / 10 % 10) :: digitChar (oh % 10) ::
    (two0 om ++ [])) = _
  rw [show two0 om ++ ([] : List Char) = two0 om from by simp, parseZ]
  simp only [h1.1, h2.1, Bool.and_self, if_true, hoc, hp5,
    show parseZSec [] = (0, []) from rfl,
    if_pos (show ('-' : Char) = '-' from rfl),
    h1.2.1, h2.2.1]
  · rw [if_pos (by decide)]
    simp only [Option.some.injEq, Prod.mk.injEq]
    exact ⟨by omega, trivial⟩
  · decide


/-! ### Parsing canonically rendered editable dates -/

theorem parseWs1_before_two0 (v : Nat) (rest : List Char) :
    parseWs1 (' ' :: (two0 v ++ rest)) = some (two0 v ++ rest) := by
  show parseWs1 (' ' :: digitChar (v / 10 % 10) :: digitChar (v % 10) :: rest) =
    some (digitChar (v / 10 % 10) :: digitChar (v % 10) :: rest)
  rw [parseWs1_one _ _ (digitChar_props (v / 10 % 10) (Nat.mod_lt _ (by omega))).2.2.1]

theorem strptimeEditable_canonical (y mo d h mi s : Nat) (off : Int)
    (sgn : Char) (oh om : Nat)
    (hy : 1 ≤ y) (hy2 : y ≤ 9999) (hmo1 : 1 ≤ mo) (hmo2 : mo ≤ 12)
    (hd1 : 1 ≤ d) (hd2 : d ≤ daysInMonth y mo) (hh : h ≤ 23) (hmi : mi ≤ 59)
    (hs : s ≤ 59)
    (hoff1 : -86400000000 < off) (hoff2 : off < 86400000000)
    (hsgn : pyIsSpace sgn = false)
    (hz : parseZ (sgn :: (two0 oh ++ two0 om)) = some (off, [])) :
    strptimeEditable (four0 y ++ '.' :: two0 mo ++ '.' :: two0 d ++ ' ' ::
        two0 h ++ ':' :: two0 mi ++ ':' :: two0 s ++ ' ' :: sgn ::
        (two0 oh ++ two0 om)) =
      some ⟨y, mo, d, h, mi, s, off⟩ := by
  have hd31 : d ≤ 31 := by
    have : daysInMonth y mo ≤ 31 := by
      rw [daysInMonth]
      split
      · split <;> omega
      · split <;> omega
    omega
  have h1 := parse4Digits_four0 y hy2
    ('.' :: (two0 mo ++ '.' :: (two0 d ++ ' ' :: (two0 h ++ ':' :: (two0 mi ++ ':' :: (two0 s ++ ' ' :: sgn :: (two0 oh ++ two0 om)))))))
  have h3 := parseNum2_two0 (fun v => decide (1 ≤ v) && decide (v ≤ 12))
    (fun v => decide (1 ≤ v) && decide (v ≤ 9)) mo (by omega)
    (by simp [hmo1, hmo2])
    ('.' :: (two0 d ++ ' ' :: (two0 h ++ ':' :: (two0 mi ++ ':' :: (two0 s ++ ' ' :: sgn :: (two0 oh ++ two0 om))))))
  have h5 := parseNum2_two0 (fun v => decide (1 ≤ v) && decide (v ≤ 31))
    (fun v => decide (1 ≤ v) && decide (v ≤ 9)) d (by omega)
    (by simp [hd1, hd31])
    (' ' :: (two0 h ++ ':' :: (two0 mi ++ ':' :: (two0 s ++ ' ' :: sgn :: (two0 oh ++ two0 om)))))
  have h7 := parseNum2_two0 (fun v => decide (v ≤ 23)) (fun _ => true) h
    (by omega) (by simp [hh])
    (':' :: (two0 mi ++ ':' :: (two0 s ++ ' ' :: sgn :: (two0 oh ++ two0 om))))
  have h9 := parseNum2_two0 (fun v => decide (v ≤ 59)) (fun _ => true) mi
    (by omega) (by simp [hmi])
    (':' :: (two0 s ++ ' ' :: sgn :: (two0 oh ++ two0 om)))
  have h11 := parseNum2_two0 (fun v => decide (v ≤ 61)) (fun _ => true) s
    (by omega) (by simp; omega)
    (' ' :: sgn :: (two0 oh ++ two0 om))
  have hw3 : parseWs1 (' ' :: sgn :: (two0 oh ++ two0 om)) =
      some (sgn :: (two0 oh ++ two0 om)) := parseWs1_one _ _ hsgn
  simp only [strptimeEditable, List.cons_append, List.append_assoc, h1,
    parseChar_cons, h3, h5, parseWs1_before_two0, h7, h9, h11, hw3, hz]
  have hcond : 1 ≤ y ∧ y ≤ 9999 ∧ 1 ≤ mo ∧ mo ≤ 12 ∧ 1 ≤ d ∧
      d ≤ daysInMonth y mo ∧ h ≤ 23 ∧ mi ≤ 59 ∧ s ≤ 59 ∧
      -86400000000 < off ∧ off < 86400000000 :=
    ⟨hy, hy2, hmo1, hmo2, hd1, hd2, hh, hmi, hs, hoff1, hoff2⟩
  simp only [mkDateTime, if_pos hcond]
  simp


/-! ### Parsing commit-layout dates -/

theorem parseWs1_before_four0 (v : Nat) (rest : List Char) :
    parseWs1 (' ' :: (four0 v ++ rest)) = some (four0 v ++ rest) := by
  show parseWs1 (' ' :: digitChar (v / 1000 % 10) :: digitChar (v / 100 % 10) ::
      digitChar (v / 10 % 10) :: digitChar (v % 10) :: rest) =
    some (digitChar (v / 1000 % 10) :: digitChar (v / 100 % 10) ::
      digitChar (v / 10 % 10) :: digitChar (v % 10) :: rest)
  rw [parseWs1_one _ _ (digitChar_props (v / 1000 % 10) (Nat.mod_lt _ (by omega))).2.2.1]

theorem strptimeCommit_layout (wkStr : List Char)
    (hw : wkStr ∈ ["Sun".toList, "Mon".toList, "Tue".toList, "Wed".toList,
      "Thu".toList, "Fri".toList, "Sat".toList])
    (y mo d h mi s : Nat) (off : Int) (sgn : Char) (oh om : Nat)
    (dayStr : List Char)
    (hy : 1 ≤ y) (hy2 : y ≤ 9999) (hmo1 : 1 ≤ mo) (hmo2 : mo ≤ 12)
    (hd1 : 1 ≤ d) (hd2 : d ≤ daysInMonth y mo) (hh : h ≤ 23) (hmi : mi ≤ 59)
    (hs : s ≤ 59)
    (hoff1 : -86400000000 < off) (hoff2 : off < 86400000000)
    (hsgn : pyIsSpace sgn = false)
    (hz : parseZ (sgn :: (two0 oh ++ two0 om)) = some (off, []))
    (hday : dayStr = two0 d ∨ (d < 10 ∧ dayStr = [digitChar d]) ∨
      (d < 10 ∧ dayStr = [' ', digitChar d])) :
    strptimeCommit (wkStr ++ ' ' :: (moName mo ++ ' ' :: (dayStr ++ ' ' ::
      (two0 h ++ ':' :: (two0 mi ++ ':' :: (two0 s ++ ' ' ::
      (four0 y ++ ' ' :: sgn :: (two0 oh ++ two0 om)))))))) =
      some ⟨y, mo, d, h, mi, s, off⟩ := by
  have hd31 : d ≤ 31 := by
    have : daysInMonth y mo ≤ 31 := by
      rw [daysInMonth]
      split
      · split <;> omega
      · split <;> omega
    omega
  obtain ⟨k, h1⟩ : ∃ k, parseAbbrev wdNamesLower (wkStr ++ ' ' ::
      (moName mo ++ ' ' :: (dayStr ++ ' ' :: (two0 h ++ ':' :: (two0 mi ++
      ':' :: (two0 s ++ ' ' :: (four0 y ++ ' ' :: sgn ::
      (two0 oh ++ two0 om)))))))) = some (k, ' ' :: (moName mo ++ ' ' ::
      (dayStr ++ ' ' :: (two0 h ++ ':' :: (two0 mi ++ ':' :: (two0 s ++
      ' ' :: (four0 y ++ ' ' :: sgn :: (two0 oh ++ two0 om))))))))  := by
    fin_cases hw <;> exact ⟨_, rfl⟩
  have hw1 : parseWs1 (' ' :: (moName mo ++ ' ' :: (dayStr ++ ' ' ::
      (two0 h ++ ':' :: (two0 mi ++ ':' :: (two0 s ++ ' ' :: (four0 y ++
      ' ' :: sgn :: (two0 oh ++ two0 om)))))))) = some (moName mo ++ ' ' ::
      (dayStr ++ ' ' :: (two0 h ++ ':' :: (two0 mi ++ ':' :: (two0 s ++
      ' ' :: (four0 y ++ ' ' :: sgn :: (two0 oh ++ two0 om))))))) := by
    interval_cases mo <;> exact parseWs1_one _ _ (by decide)
  have h2 : parseAbbrev moNamesLower (moName mo ++ ' ' :: (dayStr ++ ' ' ::
      (two0 h ++ ':' :: (two0 mi ++ ':' :: (two0 s ++ ' ' :: (four0 y ++
      ' ' :: sgn :: (two0 oh ++ two0 om)))))))  = some (mo - 1, ' ' ::
      (dayStr ++ ' ' :: (two0 h ++ ':' :: (two0 mi ++ ':' :: (two0 s ++
      ' ' :: (four0 y ++ ' ' :: sgn :: (two0 oh ++ two0 om))))))) := by
    interval_cases mo <;> rfl
  have hw3 : parseWs1 (' ' :: (two0 h ++ ':' :: (two0 mi ++ ':' :: (two0 s ++
      ' ' :: (four0 y ++ ' ' :: sgn :: (two0 oh ++ two0 om)))))) =
      some (two0 h ++ ':' :: (two0 mi ++ ':' :: (two0 s ++ ' ' ::
      (four0 y ++ ' ' :: sgn :: (two0 oh ++ two0 om))))) :=
    parseWs1_before_two0 _ _
  have h4 := parseNum2_two0 (fun v => decide (v ≤ 23)) (fun _ => true) h
    (by omega) (by simp [hh])
    (':' :: (two0 mi ++ ':' :: (two0 s ++ ' ' :: (four0 y ++ ' ' :: sgn ::
      (two0 oh ++ two0 om)))))
  have h5 := parseNum2_two0 (fun v => decide (v ≤ 59)) (fun _ => true) mi
    (by omega) (by simp [hmi])
    (':' :: (two0 s ++ ' ' :: (four0 y ++ ' ' :: sgn :: (two0 oh ++ two0 om))))
  have h6 := parseNum2_two0 (fun v => decide (v ≤ 61)) (fun _ => true) s
    (by omega) (by simp; omega)
    (' ' :: (four0 y ++ ' ' :: sgn :: (two0 oh ++ two0 om)))
  have hw4 : parseWs1 (' ' :: (four0 y ++ ' ' :: sgn ::
      (two0 oh ++ two0 om))) = some (four0 y ++ ' ' :: sgn ::
      (two0 oh ++ two0 om)) := parseWs1_before_four0 _ _
  have h7 := parse4Digits_four0 y hy2 (' ' :: sgn :: (two0 oh ++ two0 om))
  have hw5 : parseWs1 (' ' :: sgn :: (two0 oh ++ two0 om)) =
      some (sgn :: (two0 oh ++ two0 om)) := parseWs1_one _ _ hsgn
  have hmm : mo - 1 + 1 = mo := by omega
  have hcond : 1 ≤ y ∧ y ≤ 9999 ∧ 1 ≤ mo ∧ mo ≤ 12 ∧ 1 ≤ d ∧
      d ≤ daysInMonth y mo ∧ h ≤ 23 ∧ mi ≤ 59 ∧ s ≤ 59 ∧
      -86400000000 < off ∧ off < 86400000000 :=
    ⟨hy, hy2, hmo1, hmo2, hd1, hd2, hh, hmi, hs, hoff1, hoff2⟩
  rcases hday with hday | ⟨hdlt, hday⟩ | ⟨hdlt, hday⟩ <;> subst hday
  · have hw2 : parseWs1 (' ' :: (two0 d ++ ' ' :: (two0 h ++ ':' ::
        (two0 mi ++ ':' :: (two0 s ++ ' ' :: (four0 y ++ ' ' :: sgn ::
        (two0 oh ++ two0 om))))))) = some (two0 d ++ ' ' :: (two0 h ++
        ':' :: (two0 mi ++ ':' :: (two0 s ++ ' ' :: (four0 y ++ ' ' ::
        sgn :: (two0 oh ++ two0 om)))))) := parseWs1_before_two0 _ _
    have h3 := parseNum2_two0
      (fun v => decide (1 ≤ v) && decide (v ≤ 31))
      (fun v => decide (1 ≤ v) && decide (v ≤ 9)) d (by omega)
      (by simp [hd1, hd31])
      (' ' :: (two0 h ++ ':' :: (two0 mi ++ ':' :: (two0 s ++ ' ' ::
        (four0 y ++ ' ' :: sgn :: (two0 oh ++ two0 om))))))
    simp only [strptimeCommit, List.cons_append, List.append_assoc, h1, hw1,
      h2, hw2, h3, hw3, h4, parseChar_cons, h5, h6, hw4, h7, hw5, hz, hmm]
    simp only [mkDateTime, if_pos hcond]
    simp
  · have hw2 : parseWs1 (' ' :: digitChar d :: ' ' :: (two0 h ++ ':' ::
        (two0 mi ++ ':' :: (two0 s ++ ' ' :: (four0 y ++ ' ' :: sgn ::
        (two0 oh ++ two0 om)))))) = some (digitChar d :: ' ' :: (two0 h ++
        ':' :: (two0 mi ++ ':' :: (two0 s ++ ' ' :: (four0 y ++ ' ' ::
        sgn :: (two0 oh ++ two0 om)))))) :=
      parseWs1_one _ _ (digitChar_props d hdlt).2.2.1
    have h3 : parseNum2 (fun v => decide (1 ≤ v) && decide (v ≤ 31))
        (fun v => decide (1 ≤ v) && decide (v ≤ 9))
        (digitChar d :: ' ' :: (two0 h ++ ':' :: (two0 mi ++ ':' ::
          (two0 s ++ ' ' :: (four0 y ++ ' ' :: sgn ::
          (two0 oh ++ two0 om)))))) =
        some (d, ' ' :: (two0 h ++ ':' :: (two0 mi ++ ':' :: (two0 s ++
          ' ' :: (four0 y ++ ' ' :: sgn :: (two0 oh ++ two0 om)))))) :=
      parseNum2_one_digit _ _ d hdlt (by simp [hd1]; omega) ' ' _ (by decide)
    simp only [List.cons_append, List.nil_append] at h1 hw1 h2
    simp only [strptimeCommit, List.cons_append, List.nil_append,
      List.append_assoc, h1, hw1, h2, hw2, h3, hw3, h4, parseChar_cons, h5,
      h6, hw4, h7, hw5, hz, hmm]
    simp only [mkDateTime, if_pos hcond]
    simp
  · have hw2 : parseWs1 (' ' :: ' ' :: digitChar d :: ' ' :: (two0 h ++
        ':' :: (two0 mi ++ ':' :: (two0 s ++ ' ' :: (four0 y ++ ' ' ::
        sgn :: (two0 oh ++ two0 om)))))) = some (digitChar d :: ' ' ::
        (two0 h ++ ':' :: (two0 mi ++ ':' :: (two0 s ++ ' ' :: (four0 y ++
        ' ' :: sgn :: (two0 oh ++ two0 om)))))) :=
      parseWs1_two _ _ (digitChar_props d hdlt).2.2.1
    have h3 : parseNum2 (fun v => decide (1 ≤ v) && decide (v ≤ 31))
        (fun v => decide (1 ≤ v) && decide (v ≤ 9))
        (digitChar d :: ' ' :: (two0 h ++ ':' :: (two0 mi ++ ':' ::
          (two0 s ++ ' ' :: (four0 y ++ ' ' :: sgn ::
          (two0 oh ++ two0 om)))))) =
        some (d, ' ' :: (two0 h ++ ':' :: (two0 mi ++ ':' :: (two0 s ++
          ' ' :: (four0 y ++ ' ' :: sgn :: (two0 oh ++ two0 om)))))) :=
      parseNum2_one_digit _ _ d hdlt (by simp [hd1]; omega) ' ' _ (by decide)
    simp only [List.cons_append, List.nil_append] at h1 hw1 h2
    simp only [strptimeCommit, List.cons_append, List.nil_append,
      List.append_assoc, h1, hw1, h2, hw2, h3, hw3, h4, parseChar_cons, h5,
      h6, hw4, h7, hw5, hz, hmm]
    simp only [mkDateTime, if_pos hcond]
    simp


/-! ### Rendering and the core round trips on canonical strings -/

theorem wdName_mem (y m d : Nat) :
    wdName y m d ∈ ["Sun".toList, "Mon".toList, "Tue".toList, "Wed".toList,
      "Thu".toList, "Fri".toList, "Sat".toList] := by
  have h7 : toOrdinal y m d % 7 < 7 := Nat.mod_lt _ (by omega)
  rw [wdName]
  generalize hq : toOrdinal y m d % 7 = w
  rw [hq] at h7
  interval_cases w <;> decide

theorem strftimeEditable_eq (y mo d h mi s : Nat) (off : Int) (sgn : Char)
    (oh om : Nat) (hy : 1000 ≤ y)
    (hfz : fmtZ off = sgn :: (two0 oh ++ two0 om)) :
    strftimeEditable ⟨y, mo, d, h, mi, s, off⟩ =
      four0 y ++ '.' :: two0 mo ++ '.' :: two0 d ++ ' ' :: two0 h ++ ':' ::
      two0 mi ++ ':' :: two0 s ++ ' ' :: sgn :: (two0 oh ++ two0 om) := by
  simp [strftimeEditable, fmtYear_four0 _ hy, hfz]

theorem strftimeCommit_eq (y mo d h mi s : Nat) (off : Int) (sgn : Char)
    (oh om : Nat) (hy : 1000 ≤ y)
    (hfz : fmtZ off = sgn :: (two0 oh ++ two0 om)) :
    strftimeCommit ⟨y, mo, d, h, mi, s, off⟩ =
      wdName y mo d ++ ' ' :: (moName mo ++ ' ' :: (two0 d ++ ' ' ::
      (two0 h ++ ':' :: (two0 mi ++ ':' :: (two0 s ++ ' ' ::
      (four0 y ++ ' ' :: sgn :: (two0 oh ++ two0 om))))))) := by
  simp [strftimeCommit, fmtYear_four0 _ hy, hfz]

theorem toCommit_of_editable (y mo d h mi s : Nat) (off : Int) (sgn : Char)
    (oh om : Nat)
    (hy : 1000 ≤ y) (hy2 : y ≤ 9999) (hmo1 : 1 ≤ mo) (hmo2 : mo ≤ 12)
    (hd1 : 1 ≤ d) (hd2 : d ≤ daysInMonth y mo) (hh : h ≤ 23) (hmi : mi ≤ 59)
    (hs : s ≤ 59)
    (hoff1 : -86400000000 < off) (hoff2 : off < 86400000000)
    (hsgn : pyIsSpace sgn = false)
    (hfz : fmtZ off = sgn :: (two0 oh ++ two0 om))
    (hz : parseZ (sgn :: (two0 oh ++ two0 om)) = some (off, [])) :
    convert_input_date_to_commit_date
        (strftimeEditable ⟨y, mo, d, h, mi, s, off⟩).asString =
      .ok (strftimeCommit ⟨y, mo, d, h, mi, s, off⟩).asString := by
  rw [convert_input_date_to_commit_date,
    show (strftimeEditable ⟨y, mo, d, h, mi, s, off⟩).asString.toList =
      strftimeEditable ⟨y, mo, d, h, mi, s, off⟩ from rfl,
    strftimeEditable_eq y mo d h mi s off sgn oh om hy hfz,
    strptimeEditable_canonical y mo d h mi s off sgn oh om (by omega) hy2
      hmo1 hmo2 hd1 hd2 hh hmi hs hoff1 hoff2 hsgn hz]

theorem toEditable_of_commit (y mo d h mi s : Nat) (off : Int) (sgn : Char)
    (oh om : Nat)
    (hy : 1000 ≤ y) (hy2 : y ≤ 9999) (hmo1 : 1 ≤ mo) (hmo2 : mo ≤ 12)
    (hd1 : 1 ≤ d) (hd2 : d ≤ daysInMonth y mo) (hh : h ≤ 23) (hmi : mi ≤ 59)
    (hs : s ≤ 59)
    (hoff1 : -86400000000 < off) (hoff2 : off < 86400000000)
    (hsgn : pyIsSpace sgn = false)
    (hfz : fmtZ off = sgn :: (two0 oh ++ two0 om))
    (hz : parseZ (sgn :: (two0 oh ++ two0 om)) = some (off, [])) :
    convert_commit_date_to_input_date
        (strftimeCommit ⟨y, mo, d, h, mi, s, off⟩).asString =
      .ok (strftimeEditable ⟨y, mo, d, h, mi, s, off⟩).asString := by
  rw [convert_commit_date_to_input_date,
    show (strftimeCommit ⟨y, mo, d, h, mi, s, off⟩).asString.toList =
      strftimeCommit ⟨y, mo, d, h, mi, s, off⟩ from rfl,
    strftimeCommit_eq y mo d h mi s off sgn oh om hy hfz,
    strptimeCommit_layout (wdName y mo d) (wdName_mem y mo d) y mo d h mi s
      off sgn oh om (two0 d) (by omega) hy2 hmo1 hmo2 hd1 hd2 hh hmi hs
      hoff1 hoff2 hsgn hz (Or.inl rfl)]


/-! ### The date-codec claims -/

/-- C8 amended: the editable-to-commit-to-editable round trip is the
identity on every canonical editable-layout string whose year has four
significant digits and whose offset is not the negative zero `-0000`. -/
theorem c8_amended_editable_roundtrip (y mo d h mi s : Nat) (neg : Bool)
    (oh om : Nat) (hy : 1000 ≤ y) (hy2 : y ≤ 9999) (hmo1 : 1 ≤ mo)
    (hmo2 : mo ≤ 12) (hd1 : 1 ≤ d) (hd2 : d ≤ daysInMonth y mo) (hh : h ≤ 23)
    (hmi : mi ≤ 59) (hs : s ≤ 59) (hoh : oh ≤ 23) (hom : om ≤ 59)
    (hneg : neg = true → ¬(oh = 0 ∧ om = 0)) :
    (convert_input_date_to_commit_date
        (four0 y ++ '.' :: two0 mo ++ '.' :: two0 d ++ ' ' :: two0 h ++ ':' ::
         two0 mi ++ ':' :: two0 s ++ ' ' :: (if neg = true then '-' else '+') ::
         (two0 oh ++ two0 om)).asString).bind
      convert_commit_date_to_input_date =
      .ok (four0 y ++ '.' :: two0 mo ++ '.' :: two0 d ++ ' ' :: two0 h ++ ':' ::
        two0 mi ++ ':' :: two0 s ++ ' ' :: (if neg = true then '-' else '+') ::
        (two0 oh ++ two0 om)).asString := by
  cases neg with
  | false =>
    rw [show (if (false = true) then '-' else '+') = '+' from rfl]
    have hfz := fmtZ_pos oh om hoh hom
    have hz := parseZ_plus oh om hoh hom
    have hb1 : (-86400000000 : Int) <
        (((oh * 3600 + om * 60) * 1000000 : Nat) : Int) := by omega
    have hb2 : ((((oh * 3600 + om * 60) * 1000000 : Nat)) : Int) <
        86400000000 := by omega
    rw [← strftimeEditable_eq y mo d h mi s _ '+' oh om hy hfz,
      toCommit_of_editable y mo d h mi s _ '+' oh om hy hy2 hmo1 hmo2 hd1 hd2
        hh hmi hs hb1 hb2 (by decide) hfz hz]
    exact toEditable_of_commit y mo d h mi s _ '+' oh om hy hy2 hmo1 hmo2 hd1
      hd2 hh hmi hs hb1 hb2 (by decide) hfz hz
  | true =>
    rw [show (if (true = true) then '-' else '+') = '-' from rfl]
    have hfz := fmtZ_neg oh om hoh hom (hneg rfl)
    have hz := parseZ_minus oh om hoh hom
    have hb1 : (-86400000000 : Int) <
        -(((oh * 3600 + om * 60) * 1000000 : Nat) : Int) := by omega
    have hb2 : -((((oh * 3600 + om * 60) * 1000000 : Nat)) : Int) <
        86400000000 := by omega
    rw [← strftimeEditable_eq y mo d h mi s _ '-' oh om hy hfz,
      toCommit_of_editable y mo d h mi s _ '-' oh om hy hy2 hmo1 hmo2 hd1 hd2
        hh hmi hs hb1 hb2 (by decide) hfz hz]
    exact toEditable_of_commit y mo d h mi s _ '-' oh om hy hy2 hmo1 hmo2 hd1
      hd2 hh hmi hs hb1 hb2 (by decide) hfz hz

/-- C8 amended witness at the spec's editable literal. -/
theorem c8_amended_editable_roundtrip_witness :
    (convert_input_date_to_commit_date "2024.10.08 11:59:23 +0300").bind
      convert_commit_date_to_input_date = .ok "2024.10.08 11:59:23 +0300" :=
  c8_amended_editable_roundtrip 2024 10 8 11 59 23 false 3 0 (by decide)
    (by decide) (by decide) (by decide) (by decide) (by decide) (by decide)
    (by decide) (by decide) (by decide) (by decide) (by decide)

/-- C1 amended: the commit-to-editable-to-commit round trip is the
identity on every normalized commit-layout string: two-digit zero-padded
day, weekday recomputed from the date, four-significant-digit year, and
offset not `-0000`; a non-normalized layout string comes back normalized
instead (see the counterexample for the claim's own literal). -/
theorem c1_amended_commit_roundtrip (y mo d h mi s : Nat) (neg : Bool)
    (oh om : Nat) (hy : 1000 ≤ y) (hy2 : y ≤ 9999) (hmo1 : 1 ≤ mo)
    (hmo2 : mo ≤ 12) (hd1 : 1 ≤ d) (hd2 : d ≤ daysInMonth y mo) (hh : h ≤ 23)
    (hmi : mi ≤ 59) (hs : s ≤ 59) (hoh : oh ≤ 23) (hom : om ≤ 59)
    (hneg : neg = true → ¬(oh = 0 ∧ om = 0)) :
    (convert_commit_date_to_input_date
        (wdName y mo d ++ ' ' :: (moName mo ++ ' ' :: (two0 d ++ ' ' ::
         (two0 h ++ ':' :: (two0 mi ++ ':' :: (two0 s ++ ' ' ::
         (four0 y ++ ' ' :: (if neg = true then '-' else '+') ::
         (two0 oh ++ two0 om)))))))).asString).bind
      convert_input_date_to_commit_date =
      .ok (wdName y mo d ++ ' ' :: (moName mo ++ ' ' :: (two0 d ++ ' ' ::
        (two0 h ++ ':' :: (two0 mi ++ ':' :: (two0 s ++ ' ' ::
        (four0 y ++ ' ' :: (if neg = true then '-' else '+') ::
        (two0 oh ++ two0 om)))))))).asString := by
  cases neg with
  | false =>
    rw [show (if (false = true) then '-' else '+') = '+' from rfl]
    have hfz := fmtZ_pos oh om hoh hom
    have hz := parseZ_plus oh om hoh hom
    have hb1 : (-86400000000 : Int) <
        (((oh * 3600 + om * 60) * 1000000 : Nat) : Int) := by omega
    have hb2 : ((((oh * 3600 + om * 60) * 1000000 : Nat)) : Int) <
        86400000000 := by omega
    rw [← strftimeCommit_eq y mo d h mi s _ '+' oh om hy hfz,
      toEditable_of_commit y mo d h mi s _ '+' oh om hy hy2 hmo1 hmo2 hd1 hd2
        hh hmi hs hb1 hb2 (by decide) hfz hz]
    exact toCommit_of_editable y mo d h mi s _ '+' oh om hy hy2 hmo1 hmo2 hd1
      hd2 hh hmi hs hb1 hb2 (by decide) hfz hz
  | true =>
    rw [show (if (true = true) then '-' else '+') = '-' from rfl]
    have hfz := fmtZ_neg oh om hoh hom (hneg rfl)
    have hz := parseZ_minus oh om hoh hom
    have hb1 : (-86400000000 : Int) <
        -(((oh * 3600 + om * 60) * 1000000 : Nat) : Int) := by omega
    have hb2 : -((((oh * 3600 + om * 60) * 1000000 : Nat)) : Int) <
        86400000000 := by omega
    rw [← strftimeCommit_eq y mo d h mi s _ '-' oh om hy hfz,
      toEditable_of_commit y mo d h mi s _ '-' oh om hy hy2 hmo1 hmo2 hd1 hd2
        hh hmi hs hb1 hb2 (by decide) hfz hz]
    exact toCommit_of_editable y mo d h mi s _ '-' oh om hy hy2 hmo1 hmo2 hd1
      hd2 hh hmi hs hb1 hb2 (by decide) hfz hz

/-- C1 amended witness: the normalized form of the claim's literal (day
zero-padded to `08`) is a fixed point of the round trip. -/
theorem c1_amended_commit_roundtrip_witness :
    (convert_commit_date_to_input_date "Tue Oct 08 11:59:23 2024 +0300").bind
      convert_input_date_to_commit_date = .ok "Tue Oct 08 11:59:23 2024 +0300" :=
  c1_amended_commit_roundtrip 2024 10 8 11 59 23 false 3 0 (by decide)
    (by decide) (by decide) (by decide) (by decide) (by decide) (by decide)
    (by decide) (by decide) (by decide) (by decide) (by decide)


/-- C10: for every date string in the source commit layout (any of the
seven weekday names, a zero-padded, bare, or space-padded day, either
offset sign), one decode–encode round trip is idempotent: re-encoding and
re-decoding the decoded value changes nothing. -/
theorem c10_roundtrip_fixed_point (wkStr : List Char)
    (hw : wkStr ∈ ["Sun".toList, "Mon".toList, "Tue".toList, "Wed".toList,
      "Thu".toList, "Fri".toList, "Sat".toList])
    (y mo d h mi s : Nat) (neg : Bool) (oh om : Nat) (dayStr : List Char)
    (hy : 1000 ≤ y) (hy2 : y ≤ 9999) (hmo1 : 1 ≤ mo) (hmo2 : mo ≤ 12)
    (hd1 : 1 ≤ d) (hd2 : d ≤ daysInMonth y mo) (hh : h ≤ 23) (hmi : mi ≤ 59)
    (hs : s ≤ 59) (hoh : oh ≤ 23) (hom : om ≤ 59)
    (hday : dayStr = two0 d ∨ (d < 10 ∧ dayStr = [digitChar d]) ∨
      (d < 10 ∧ dayStr = [' ', digitChar d])) :
    (convert_commit_date_to_input_date
        (wkStr ++ ' ' :: (moName mo ++ ' ' :: (dayStr ++ ' ' ::
         (two0 h ++ ':' :: (two0 mi ++ ':' :: (two0 s ++ ' ' ::
         (four0 y ++ ' ' :: (if neg = true then '-' else '+') ::
         (two0 oh ++ two0 om)))))))).asString).bind
      (fun e => (convert_input_date_to_commit_date e).bind
        convert_commit_date_to_input_date) =
      convert_commit_date_to_input_date
        (wkStr ++ ' ' :: (moName mo ++ ' ' :: (dayStr ++ ' ' ::
         (two0 h ++ ':' :: (two0 mi ++ ':' :: (two0 s ++ ' ' ::
         (four0 y ++ ' ' :: (if neg = true then '-' else '+') ::
         (two0 oh ++ two0 om)))))))).asString := by
  cases neg with
  | false =>
    rw [show (if (false = true) then '-' else '+') = '+' from rfl]
    have hfz := fmtZ_pos oh om hoh hom
    have hz := parseZ_plus oh om hoh hom
    have hb1 : (-86400000000 : Int) <
        (((oh * 3600 + om * 60) * 1000000 : Nat) : Int) := by omega
    have hb2 : ((((oh * 3600 + om * 60) * 1000000 : Nat)) : Int) <
        86400000000 := by omega
    have hparse : convert_commit_date_to_input_date
        (wkStr ++ ' ' :: (moName mo ++ ' ' :: (dayStr ++ ' ' ::
         (two0 h ++ ':' :: (two0 mi ++ ':' :: (two0 s ++ ' ' ::
         (four0 y ++ ' ' :: '+' :: (two0 oh ++ two0 om)))))))).asString =
        .ok (strftimeEditable ⟨y, mo, d, h, mi, s,
          (((oh * 3600 + om * 60) * 1000000 : Nat) : Int)⟩).asString := by
      rw [convert_commit_date_to_input_date]
      rw [show (wkStr ++ ' ' :: (moName mo ++ ' ' :: (dayStr ++ ' ' ::
         (two0 h ++ ':' :: (two0 mi ++ ':' :: (two0 s ++ ' ' ::
         (four0 y ++ ' ' :: '+' :: (two0 oh ++ two0 om)))))))).asString.toList =
        wkStr ++ ' ' :: (moName mo ++ ' ' :: (dayStr ++ ' ' ::
         (two0 h ++ ':' :: (two0 mi ++ ':' :: (two0 s ++ ' ' ::
         (four0 y ++ ' ' :: '+' :: (two0 oh ++ two0 om))))))) from rfl]
      rw [strptimeCommit_layout wkStr hw y mo d h mi s _ '+' oh om dayStr
        (by omega) hy2 hmo1 hmo2 hd1 hd2 hh hmi hs hb1 hb2 (by decide) hz hday]
    rw [hparse]
    show (convert_input_date_to_commit_date
        (strftimeEditable ⟨y, mo, d, h, mi, s,
          (((oh * 3600 + om * 60) * 1000000 : Nat) : Int)⟩).asString).bind
      convert_commit_date_to_input_date = _
    exact Eq.trans
      (congrArg (fun z => Except.bind z convert_commit_date_to_input_date)
        (toCommit_of_editable y mo d h mi s _ '+' oh om hy hy2 hmo1 hmo2 hd1
          hd2 hh hmi hs hb1 hb2 (by decide) hfz hz))
      (toEditable_of_commit y mo d h mi s _ '+' oh om hy hy2 hmo1 hmo2 hd1
        hd2 hh hmi hs hb1 hb2 (by decide) hfz hz)
  | true =>
    rw [show (if (true = true) then '-' else '+') = '-' from rfl]
    have hz := parseZ_minus oh om hoh hom
    have hb1 : (-86400000000 : Int) <
        -(((oh * 3600 + om * 60) * 1000000 : Nat) : Int) := by omega
    have hb2 : -((((oh * 3600 + om * 60) * 1000000 : Nat)) : Int) <
        86400000000 := by omega
    have hparse : convert_commit_date_to_input_date
        (wkStr ++ ' ' :: (moName mo ++ ' ' :: (dayStr ++ ' ' ::
         (two0 h ++ ':' :: (two0 mi ++ ':' :: (two0 s ++ ' ' ::
         (four0 y ++ ' ' :: '-' :: (two0 oh ++ two0 om)))))))).asString =
        .ok (strftimeEditable ⟨y, mo, d, h, mi, s,
          -(((oh * 3600 + om * 60) * 1000000 : Nat) : Int)⟩).asString := by
      rw [convert_commit_date_to_input_date]
      rw [show (wkStr ++ ' ' :: (moName mo ++ ' ' :: (dayStr ++ ' ' ::
         (two0 h ++ ':' :: (two0 mi ++ ':' :: (two0 s ++ ' ' ::
         (four0 y ++ ' ' :: '-' :: (two0 oh ++ two0 om)))))))).asString.toList =
        wkStr ++ ' ' :: (moName mo ++ ' ' :: (dayStr ++ ' ' ::
         (two0 h ++ ':' :: (two0 mi ++ ':' :: (two0 s ++ ' ' ::
         (four0 y ++ ' ' :: '-' :: (two0 oh ++ two0 om))))))) from rfl]
      rw [strptimeCommit_layout wkStr hw y mo d h mi s _ '-' oh om dayStr
        (by omega) hy2 hmo1 hmo2 hd1 hd2 hh hmi hs hb1 hb2 (by decide) hz hday]
    rw [hparse]
    show (convert_input_date_to_commit_date
        (strftimeEditable ⟨y, mo, d, h, mi, s,
          -(((oh * 3600 + om * 60) * 1000000 : Nat) : Int)⟩).asString).bind
      convert_commit_date_to_input_date = _
    by_cases h0 : oh = 0 ∧ om = 0
    · obtain ⟨h01, h02⟩ := h0
      subst h01
      subst h02
      rw [show -(((0 * 3600 + 0 * 60) * 1000000 : Nat) : Int) =
        (((0 * 3600 + 0 * 60) * 1000000 : Nat) : Int) from by decide]
      have hfz0 := fmtZ_pos 0 0 (by omega) (by omega)
      have hz0 := parseZ_plus 0 0 (by omega) (by omega)
      have hc1 : (-86400000000 : Int) <
          (((0 * 3600 + 0 * 60) * 1000000 : Nat) : Int) := by omega
      have hc2 : ((((0 * 3600 + 0 * 60) * 1000000 : Nat)) : Int) <
          86400000000 := by omega
      exact Eq.trans
        (congrArg (fun z => Except.bind z convert_commit_date_to_input_date)
          (toCommit_of_editable y mo d h mi s _ '+' 0 0 hy hy2 hmo1 hmo2 hd1
            hd2 hh hmi hs hc1 hc2 (by decide) hfz0 hz0))
        (toEditable_of_commit y mo d h mi s _ '+' 0 0 hy hy2 hmo1 hmo2 hd1
          hd2 hh hmi hs hc1 hc2 (by decide) hfz0 hz0)
    · have hfz := fmtZ_neg oh om hoh hom h0
      exact Eq.trans
        (congrArg (fun z => Except.bind z convert_commit_date_to_input_date)
          (toCommit_of_editable y mo d h mi s _ '-' oh om hy hy2 hmo1 hmo2
            hd1 hd2 hh hmi hs hb1 hb2 (by decide) hfz hz))
        (toEditable_of_commit y mo d h mi s _ '-' oh om hy hy2 hmo1 hmo2 hd1
          hd2 hh hmi hs hb1 hb2 (by decide) hfz hz)

/-- C10 witness: the claim's literal, with single-digit day, is a fixed
point of the round trip after one decode. -/
theorem c10_roundtrip_fixed_point_witness :
    (convert_commit_date_to_input_date "Tue Oct 8 11:59:23 2024 +0300").bind
      (fun e => (convert_input_date_to_commit_date e).bind
        convert_commit_date_to_input_date) =
      convert_commit_date_to_input_date "Tue Oct 8 11:59:23 2024 +0300" :=
  c10_roundtrip_fixed_point ("Tue".toList) (by decide) 2024 10 8 11 59 23
    false 3 0 [digitChar 8] (by decide) (by decide) (by decide) (by decide)
    (by decide) (by decide) (by decide) (by decide) (by decide) (by decide)
    (by decide) (Or.inr (Or.inl ⟨by decide, rfl⟩))

/-- C6: both conversion functions fail with a `DateFormatError` on every
input their format does not accept — the error is returned, never
swallowed or defaulted — the two errors are distinct, and in particular
both functions fail on the input `"not a date"`. -/
theorem c6_dateformaterror_on_mismatch :
    (∀ str, strptimeCommit str.toList = none →
      convert_commit_date_to_input_date str =
        .error (.valueError "%a %b %d %H:%M:%S %Y %z" str)) ∧
    (∀ str, strptimeEditable str.toList = none →
      convert_input_date_to_commit_date str =
        .error (.valueError "%Y.%m.%d %H:%M:%S %z" str)) ∧
    convert_commit_date_to_input_date "not a date" =
      .error (.valueError "%a %b %d %H:%M:%S %Y %z" "not a date") ∧
    convert_input_date_to_commit_date "not a date" =
      .error (.valueError "%Y.%m.%d %H:%M:%S %z" "not a date") ∧
    (DateFormatError.valueError "%a %b %d %H:%M:%S %Y %z" "not a date" ≠
      DateFormatError.valueError "%Y.%m.%d %H:%M:%S %z" "not a date") := by
  refine ⟨fun str hn => ?_, fun str hn => ?_, by decide, by decide, by decide⟩
  · rw [convert_commit_date_to_input_date, hn]
  · rw [convert_input_date_to_commit_date, hn]

/-- C6 witness: the general mismatch clauses applied at a concrete
non-matching input. -/
theorem c6_dateformaterror_on_mismatch_witness :
    convert_commit_date_to_input_date "2024.10.08" =
      .error (.valueError "%a %b %d %H:%M:%S %Y %z" "2024.10.08") ∧
    convert_input_date_to_commit_date "Tue Oct" =
      .error (.valueError "%Y.%m.%d %H:%M:%S %z" "Tue Oct") :=
  ⟨c6_dateformaterror_on_mismatch.1 "2024.10.08" (by decide),
   c6_dateformaterror_on_mismatch.2.1 "Tue Oct" (by decide)⟩

end GitDate
